import Mathlib

/-
Verification of the sandbox core of mozilla-services/heka (src/sandbox/lua).

Shallow embedding of the C sources: the time-bucketed circular buffer
(lua_circular_buffer.c), the output buffer, serializers and allocator
(lua_sandbox_private.c, lua_sandbox.c), the host dispatch
(lua_sandbox_interface.c) and the protobuf writer (lua_sandbox_protobuf.c).

Modelling conventions:
- C doubles are modelled as rationals.  The modelled code paths only move,
  compare, add and scale values by powers of ten; on the inputs used by the
  theorems these operations are exact in IEEE double arithmetic, so the
  rational model agrees with the C semantics there (noted per definition).
- C integers are Nat or Int; where 32-bit or 64-bit overflow can matter the
  reduction is written explicitly or excluded by a stated hypothesis.
- Lua errors (luaL_error / lua_error, which longjmp out of the C function)
  are modelled as a none result.
- Strings are lists of Char standing for the C byte strings.
-/

namespace Heka

/-! Basic decimal-digit helpers shared by the serializers and their parsers. -/

/-- Char for a single decimal digit value, as the C `c + '0'`. -/
def digitChar (d : Nat) : Char := Char.ofNat (48 + d)

/-- Digit value of a char, as the C `ch - '0'`. -/
def charDigit (ch : Char) : Nat := ch.toNat - 48

/-- ASCII decimal digit test (the only digits the serializers emit). -/
def isDigitCharB (ch : Char) : Bool := 48 ≤ ch.toNat && ch.toNat ≤ 57

/-- The C do-while `*p++ = (number %% 10) + '0'; number /= 10; while (number > 0)`:
least-significant-first decimal digits, always at least one digit.
(serialize_double, lua_sandbox_private.c lines 230..234; also the %lld / %d
integer formatting of serialize_circular_buffer, modelled at digit level.) -/
def natLsbDigitsGo (fuel n : Nat) : List Nat :=
  match fuel with
  | 0 => [n]
  | fuel + 1 => if n < 10 then [n] else n % 10 :: natLsbDigitsGo fuel (n / 10)

/-- The digits with enough fuel; n itself always suffices. -/
def natLsbDigits (n : Nat) : List Nat := natLsbDigitsGo n n

/-- Most-significant-first decimal text of a natural number. -/
def natMsbChars (n : Nat) : List Char := ((natLsbDigits n).map digitChar).reverse

/-- The fraction-digit loop of serialize_double (lua_sandbox_private.c lines
215..226): emits the 8 decimal fraction digits least-significant first,
skipping the trailing zeros of the decimal expansion while `nodigits` holds.
The result is the pushed digit values in push order. -/
def fracDigits : Nat → Nat → Bool → List Nat
  | 0, _, _ => []
  | m + 1, f, nodigits =>
    let c := f % 10
    if c = 0 ∧ nodigits then fracDigits m (f / 10) nodigits
    else c :: fracDigits m (f / 10) false

/-- INT_MAX, the threshold of serialize_double's fast path. -/
def INT_MAX : Nat := 2147483647

/-- serialize_double (lua_sandbox_private.c lines 181..260) on the rational
model of a double.  `none` stands for the `d > INT_MAX` branch, which formats
with printf "%0.9g" and is not modelled (no theorem exercises it).  On the
modelled branch: truncate to an integer part, scale the remainder by 1e8 and
truncate again, apply the rounding of lines 203..212, then emit the digits
(fraction least-significant first with trailing zeros skipped, a dot when the
fraction is nonzero, then the integer digits) and reverse the buffer, with a
leading minus for negative inputs.  The double subtraction and the scaling by
1e8 are exact in IEEE arithmetic whenever the value has at most 8 fractional
decimal digits, which is the domain of the round-trip theorem; the rational
model computes them exactly always. -/
def serialize_double (d : ℚ) : Option (List Char) :=
  if d > (INT_MAX : ℚ) then none
  else
    let negative := d < 0
    let d := if negative then -d else d
    let number : Nat := d.floor.toNat
    let tmp : ℚ := (d - (number : ℚ)) * 100000000
    let fraction : Nat := tmp.floor.toNat
    let diff : ℚ := tmp - (fraction : ℚ)
    let nf : Nat × Nat :=
      if diff > 1 / 2 then
        (if fraction + 1 ≥ 100000000 then (number + 1, 0) else (number, fraction + 1))
      else if diff = 1 / 2 ∧ (fraction = 0 ∨ fraction &&& 1 = 1) then (number, fraction + 1)
      else (number, fraction)
    let buffer : List Char :=
      (if nf.2 ≠ 0 then (fracDigits 8 nf.2 true).map digitChar ++ ['.'] else [])
        ++ (natLsbDigits nf.1).map digitChar
    some ((if negative then ['-'] else []) ++ buffer.reverse)

/-- Parser for the plain decimal text the serializers emit: optional minus,
integer digits, optionally a dot and fraction digits.  Models the
`sscanf "%lg"` reading in circular_buffer_fromstring (exact decimal reading;
scientific notation and partial-token consumption, which the modelled
serializer outputs never produce, are omitted): the unsigned core first. -/
def parseDecCore (s1 : List Char) : Option ℚ :=
  let ip := s1.takeWhile isDigitCharB
  let rest := s1.dropWhile isDigitCharB
  if ip = [] then none
  else
    let n : Nat := Nat.ofDigits 10 ((ip.map charDigit).reverse)
    if rest = [] then some (n : ℚ)
    else if rest.headD ' ' = '.' then
      (if (rest.tail).all isDigitCharB then
        some ((n : ℚ) + ((Nat.ofDigits 10 (((rest.tail).map charDigit).reverse) : ℕ) : ℚ)
          / 10 ^ (rest.tail).length)
      else none)
    else none

/-- The sign wrapper: an optional leading minus, then the unsigned number. -/
def parseDec (s : List Char) : Option ℚ :=
  let neg : Bool := s.headD ' ' = '-'
  let s1 := if neg then s.tail else s
  match parseDecCore s1 with
  | Option.none => none
  | some q => some (if neg then -q else q)

/-- Parser for an unsigned decimal token, the `sscanf "%lld %%u"` reading of
circular_buffer_fromstring restricted to the nonnegative times the serializer
produces (m_current_time starts at seconds_per_row*(rows-1) and only grows). -/
def parseNatToken (s : List Char) : Option Nat :=
  if s ≠ [] ∧ s.all isDigitCharB then
    some (Nat.ofDigits 10 ((s.map charDigit).reverse))
  else none

/-! The circular buffer (lua_circular_buffer.c). -/

/-- COLUMN_AGGREGATION (lua_circular_buffer.c lines 34..42). -/
inductive COLUMN_AGGREGATION where
  | sum
  | min
  | max
  | avg
  | none
deriving Repr, DecidableEq

/-- OUTPUT_FORMAT (lines 44..49). -/
inductive OUTPUT_FORMAT where
  | cbuf
  | cbufd
deriving Repr, DecidableEq

/-- header_info (lines 51..56): fixed 16/8 byte C arrays modelled as char
lists of length at most 15 / 7 (the strncpy bounds). -/
structure header_info where
  m_name : List Char
  m_unit : List Char
  m_aggregation : COLUMN_AGGREGATION
deriving Repr, DecidableEq

/-- struct circular_buffer (lines 58..71).  m_current_time is a time_t that
stays nonnegative on every path from circular_buffer_new, so it is a Nat;
cell values are the rational model of the C doubles.  m_ref, the handle of
the delta side table kept in the Lua registry, lives in the Lua heap and is
not part of the value state; the delta flag is kept. -/
structure CircularBuffer where
  m_current_time : Nat
  m_seconds_per_row : Nat
  m_current_row : Nat
  m_rows : Nat
  m_columns : Nat
  m_headers : List header_info
  m_values : List ℚ
  m_delta : Bool
  m_format : OUTPUT_FORMAT
deriving Repr, DecidableEq

/-- get_start_time (lines 74..77). -/
def get_start_time (cb : CircularBuffer) : Nat :=
  cb.m_current_time - cb.m_seconds_per_row * (cb.m_rows - 1)

/-- The memset of a single row inside clear_rows (lines 91..92). -/
def clear_row (values : List ℚ) (columns row : Nat) : List ℚ :=
  values.mapIdx (fun i v =>
    if row * columns ≤ i ∧ i < row * columns + columns then 0 else v)

/-- The row-by-row loop of clear_rows (lines 87..94): advance the row with
wrap-around, then zero it, num_rows times. -/
def clear_rows_loop (columns rows : Nat) (values : List ℚ) (row : Nat) :
    Nat → List ℚ
  | 0 => values
  | x + 1 =>
    let row2 := if row + 1 ≥ rows then 0 else row + 1
    clear_rows_loop columns rows (clear_row values columns row2) row2 x

/-- clear_rows (lines 80..95). -/
def clear_rows (cb : CircularBuffer) (num_rows : Nat) : CircularBuffer :=
  if num_rows ≥ cb.m_rows then
    { cb with m_values := cb.m_values.map (fun _ => 0) }
  else
    { cb with m_values :=
        clear_rows_loop cb.m_columns cb.m_rows cb.m_values cb.m_current_row num_rows }

/-- The bucket of a nanosecond timestamp: `t = ns / 1e9; t = t - (t %% S)`.
The C timestamp is a double converted by `(time_t)(ns / 1e9)`; the claims
quantify over nonnegative timestamps, so ns is a Nat of nanoseconds and the
conversion is exact truncated division. -/
def bucket (ns S : Nat) : Nat :=
  ns / 1000000000 - (ns / 1000000000) % S

/-- check_row (lines 157..175).  Returns the possibly advanced buffer and
the row index, or none for the C return of -1.  The C locals current_row,
requested_row and row_delta are ints; the theorems that use this carry
hypotheses keeping them below 2^31 so mathematical integers model them. -/
def check_row (cb : CircularBuffer) (ns : Nat) (advance : Bool) :
    CircularBuffer × Option Nat :=
  let t := bucket ns cb.m_seconds_per_row
  let current_row : Int := ((cb.m_current_time / cb.m_seconds_per_row : Nat) : Int)
  let requested_row : Int := ((t / cb.m_seconds_per_row : Nat) : Int)
  let row_delta : Int := requested_row - current_row
  let row : Nat := (t / cb.m_seconds_per_row) % cb.m_rows
  if 0 < row_delta ∧ advance = true then
    let cb2 := clear_rows cb row_delta.toNat
    ({ cb2 with m_current_time := t, m_current_row := row }, some row)
  else if cb.m_rows ≤ row_delta.natAbs then
    (cb, none)
  else
    (cb, some row)

/-- check_column (lines 178..185): 1-based column argument check, returning
the zero-based column or none for the luaL_argcheck error. -/
def check_column (cb : CircularBuffer) (column : Nat) : Option Nat :=
  if 1 ≤ column ∧ column ≤ cb.m_columns then some (column - 1) else none

/-- circular_buffer_set (lines 280..303).  none is a raised Lua argument
error (invalid column; check_row has already run when the column check
fires, and the error unwinds the Lua call).  Otherwise the updated buffer
and the value pushed to Lua: the set value, or none for the nil pushed when
check_row returned -1.  In delta mode the side table in the Lua heap also
accumulates `value - old`; that table is outside this value state. -/
def circular_buffer_set (cb : CircularBuffer) (ns : Nat) (column : Nat)
    (value : ℚ) : Option (CircularBuffer × Option ℚ) :=
  let r := check_row cb ns true
  match check_column r.1 column with
  | Option.none => none
  | some col =>
    match r.2 with
    | some row =>
      let i := row * r.1.m_columns + col
      some ({ r.1 with m_values := r.1.m_values.set i value }, some value)
    | Option.none => some (r.1, none)

/-- circular_buffer_get (lines 263..277): no advance (check_row with
advance 0 never mutates), read the cell or push nil. -/
def circular_buffer_get (cb : CircularBuffer) (ns : Nat) (column : Nat) :
    Option (Option ℚ) :=
  let r := check_row cb ns false
  match check_column cb column with
  | Option.none => none
  | some col =>
    match r.2 with
    | some row => some (some (cb.m_values.getD (row * cb.m_columns + col) 0))
    | Option.none => some none

/-- circular_buffer_new (lines 98..144): argument checks, then a zeroed
matrix, current time seconds_per_row*(rows-1), current row rows-1 and the
default headers "Column_i" / "count". -/
def circular_buffer_new (rows columns seconds_per_row : Nat) (delta : Bool) :
    Option CircularBuffer :=
  if 1 < rows ∧ 0 < columns ∧ 0 < seconds_per_row ∧ seconds_per_row ≤ 3600 then
    some
      { m_current_time := seconds_per_row * (rows - 1)
        m_seconds_per_row := seconds_per_row
        m_current_row := rows - 1
        m_rows := rows
        m_columns := columns
        m_headers := (List.range columns).map (fun i =>
          { m_name := (("Column_").toList ++ natMsbChars (i + 1)).take 15
            m_unit := ("count").toList
            m_aggregation := COLUMN_AGGREGATION.sum })
        m_values := List.replicate (rows * columns) 0
        m_delta := delta
        m_format := OUTPUT_FORMAT.cbuf }
  else none

/-- DBL_MAX, the largest finite IEEE double, the initializer of compute_min
(lua_circular_buffer.c line 441). -/
def DBL_MAX : ℚ := (2 ^ 53 - 1) * 2 ^ 971

/-- DBL_MIN, the smallest positive normalized IEEE double (about 2.2e-308),
the initializer of compute_max (line 461). -/
def DBL_MIN : ℚ := 1 / 2 ^ 1022

/-- The visiting order of the do-while ring scan shared by the compute_*
functions (for example lines 340..346): visit the row after wrapping it to 0
when it equals m_rows, stop after visiting end_row.  The fuel bounds the
iteration count; every in-range scan visits at most m_rows rows, and the
callers pass fuel m_rows + 1. -/
def ring_rows (rows : Nat) : Nat → Nat → Nat → List Nat
  | _, _, 0 => []
  | row, end_row, fuel + 1 =>
    let row := if row = rows then 0 else row
    if row = end_row then [row]
    else row :: ring_rows rows (row + 1) end_row fuel

/-- The cell at (row, column) of the dense matrix, `m_values[(row * m_columns)
+ column]`. -/
def cellAt (cb : CircularBuffer) (row column : Nat) : ℚ :=
  cb.m_values.getD (row * cb.m_columns + column) 0

/-- compute_sum (lines 335..348). -/
def compute_sum (cb : CircularBuffer) (column start_row end_row : Nat) : ℚ :=
  ((ring_rows cb.m_rows start_row end_row (cb.m_rows + 1)).map
    (cellAt cb · column)).foldl (· + ·) 0

/-- compute_avg (lines 351..367). -/
def compute_avg (cb : CircularBuffer) (column start_row end_row : Nat) : ℚ :=
  let visited := (ring_rows cb.m_rows start_row end_row (cb.m_rows + 1)).map
    (cellAt cb · column)
  (visited.foldl (· + ·) 0) / visited.length

/-- compute_min (lines 438..455): result starts at DBL_MAX and is lowered by
every strictly smaller cell. -/
def compute_min (cb : CircularBuffer) (column start_row end_row : Nat) : ℚ :=
  ((ring_rows cb.m_rows start_row end_row (cb.m_rows + 1)).map
    (cellAt cb · column)).foldl (fun result value =>
      if value < result then value else result) DBL_MAX

/-- compute_max (lines 458..475): result starts at DBL_MIN (the smallest
positive normalized double, not a smallest value) and is raised by every
strictly greater cell. -/
def compute_max (cb : CircularBuffer) (column start_row end_row : Nat) : ℚ :=
  ((ring_rows cb.m_rows start_row end_row (cb.m_rows + 1)).map
    (cellAt cb · column)).foldl (fun result value =>
      if value > result then value else result) DBL_MIN

/-- The compute function enum (line 480). -/
inductive COMPUTE_FN where
  | sum
  | avg
  | sd
  | min
  | max
deriving Repr, DecidableEq

/-- circular_buffer_compute (lines 478..518).  Outer none is a raised Lua
argument error; inner none is the pushed nil when an endpoint row is outside
the window.  The optional range arguments default to the whole window.  The
sd branch is not modelled: bsd_sqrt (lines 373..414) runs Newton iteration
on binary floats via frexp, outside the rational model; no claim touches it,
and the branch is mapped to the error result. -/
def circular_buffer_compute (cb : CircularBuffer) (fn : COMPUTE_FN)
    (column : Nat) (start_ns_arg end_ns_arg : Option Nat) : Option (Option ℚ) :=
  match check_column cb column with
  | Option.none => none
  | some col =>
    let start_ns := start_ns_arg.getD (get_start_time cb * 1000000000)
    let end_ns := end_ns_arg.getD (cb.m_current_time * 1000000000)
    if end_ns < start_ns then none
    else
      match (check_row cb start_ns false).2, (check_row cb end_ns false).2 with
      | some start_row, some end_row =>
        match fn with
        | COMPUTE_FN.sum => some (some (compute_sum cb col start_row end_row))
        | COMPUTE_FN.avg => some (some (compute_avg cb col start_row end_row))
        | COMPUTE_FN.sd => none
        | COMPUTE_FN.min => some (some (compute_min cb col start_row end_row))
        | COMPUTE_FN.max => some (some (compute_max cb col start_row end_row))
      | _, _ => some none

/-- The C isalnum on the ASCII range used by the sanitizers of
circular_buffer_set_header (lines 317..328). -/
def c_isalnum (ch : Char) : Bool :=
  (48 ≤ ch.toNat && ch.toNat ≤ 57) || (65 ≤ ch.toNat && ch.toNat ≤ 90)
    || (97 ≤ ch.toNat && ch.toNat ≤ 122)

/-- The name sanitizer of set_header: every non-alphanumeric byte becomes an
underscore. -/
def sanitize_name (s : List Char) : List Char :=
  s.map (fun ch => if c_isalnum ch then ch else '_')

/-- The unit sanitizer of set_header: '/' and '*' survive, every other
non-alphanumeric byte becomes an underscore. -/
def sanitize_unit (s : List Char) : List Char :=
  s.map (fun ch => if ch = '/' || ch = '*' || c_isalnum ch then ch else '_')

/-- circular_buffer_set_header (lines 306..332): column check, strncpy with
the 15/7 byte bounds, sanitization, and the 1-based column as result. -/
def circular_buffer_set_header (cb : CircularBuffer) (column : Nat)
    (name unit : List Char) (agg : COLUMN_AGGREGATION) :
    Option (CircularBuffer × Nat) :=
  match check_column cb column with
  | Option.none => none
  | some col =>
    let h : header_info :=
      { m_name := sanitize_name (name.take 15)
        m_unit := sanitize_unit (unit.take 7)
        m_aggregation := agg }
    some ({ cb with m_headers := cb.m_headers.set col h }, col + 1)

/-- The delta-row scan of circular_buffer_delta_fromstring (lines 546..572):
tokens cycle through one timestamp and m_columns delta values per row; a
partial trailing row is the Lua error "fromstring() invalid delta" (none).
The decoded deltas feed the side table in the Lua heap, outside this value
state, so only well-formedness is modelled. -/
def delta_fromstring_scan (columns : Nat) : Nat → List (List Char) → Option Unit
  | pos, [] => if pos ≠ 0 then none else some ()
  | pos, tk :: rest =>
    match parseDec tk with
    | Option.none => if pos ≠ 0 then none else some ()
    | some _ =>
      let pos2 := if pos = columns then 0 else pos + 1
      delta_fromstring_scan columns pos2 rest

/-- The cell-filling loop of circular_buffer_fromstring (lines 590..602):
write each parsed value at pos, erroring on too many values unless delta
mode hands the excess to the delta decoder, and on too few after the scan
stops.  The C scan over one space-separated string is modelled at token
level. -/
def fromstring_cells (len columns : Nat) (delta : Bool) :
    List ℚ → Nat → List (List Char) → Option (List ℚ)
  | values, pos, [] => if pos = len then some values else none
  | values, pos, tk :: rest =>
    match parseDec tk with
    | Option.none => if pos = len then some values else none
    | some v =>
      if pos = len then
        if delta then
          match delta_fromstring_scan columns 0 (tk :: rest) with
          | some _ => some values
          | Option.none => none
        else none
      else fromstring_cells len columns delta (values.set pos v) (pos + 1) rest

/-- circular_buffer_fromstring (lines 575..608): parse "%lld %%u" into
m_current_time and m_current_row, then fill the matrix.  none is a raised
Lua error.  The %lld can read negative times; the serializer only produces
the nonnegative ones the Nat model covers. -/
def circular_buffer_fromstring (cb : CircularBuffer)
    (tokens : List (List Char)) : Option CircularBuffer :=
  match tokens with
  | tT :: tR :: rest =>
    match parseNatToken tT, parseNatToken tR with
    | some t, some r =>
      let cb := { cb with m_current_time := t, m_current_row := r }
      match fromstring_cells (cb.m_rows * cb.m_columns) cb.m_columns
          cb.m_delta cb.m_values 0 rest with
      | some values => some { cb with m_values := values }
      | Option.none => none
    | _, _ => none
  | _ => none

/-- The aggregation-method literal written by the serializers (the
column_aggregation_methods table, lines 30..31). -/
def aggregation_text : COLUMN_AGGREGATION → List Char
  | COLUMN_AGGREGATION.sum => ("sum").toList
  | COLUMN_AGGREGATION.min => ("min").toList
  | COLUMN_AGGREGATION.max => ("max").toList
  | COLUMN_AGGREGATION.avg => ("avg").toList
  | COLUMN_AGGREGATION.none => ("none").toList

/-- The restoration text serialize_circular_buffer emits (lines 751..804),
at statement level: the guarded circular_buffer.new line, one set_header
line per column, and the space-separated fromstring payload
"T r v0 v1 ...".  The payload is the token list the fromstring scan reads;
the delta side table is assumed empty (m_ref == LUA_NOREF), as it is after
every output of the cbufd form and in the theorems. -/
structure cb_serialized where
  new_rows : Nat
  new_columns : Nat
  new_seconds_per_row : Nat
  new_delta : Bool
  header_lines : List (Nat × List Char × List Char × COLUMN_AGGREGATION)
  payload : List (List Char)
deriving Repr, DecidableEq

/-- serialize_circular_buffer (lines 751..804) producing the statement-level
form; none when a cell falls on serialize_double's unmodelled %0.9g path. -/
def serialize_circular_buffer (cb : CircularBuffer) : Option cb_serialized :=
  match cb.m_values.mapM serialize_double with
  | Option.none => none
  | some cells =>
    some
      { new_rows := cb.m_rows
        new_columns := cb.m_columns
        new_seconds_per_row := cb.m_seconds_per_row
        new_delta := cb.m_delta
        header_lines := (List.range cb.m_columns).map (fun i =>
          let h := cb.m_headers.getD i
            ({ m_name := [], m_unit := [], m_aggregation := COLUMN_AGGREGATION.sum })
          (i + 1, h.m_name, h.m_unit, h.m_aggregation))
        payload := natMsbChars cb.m_current_time
          :: natMsbChars cb.m_current_row :: cells }

/-- Re-execution of the emitted restoration statements in a fresh sandbox:
the guarded new (the global is nil there, so new runs), the set_header
calls, then fromstring on the payload. -/
def restore_circular_buffer (s : cb_serialized) : Option CircularBuffer := do
  let cb ← circular_buffer_new s.new_rows s.new_columns s.new_seconds_per_row
    s.new_delta
  let cb ← s.header_lines.foldlM (fun cb line => do
    let r ← circular_buffer_set_header cb line.1 line.2.1 line.2.2.1 line.2.2.2
    pure r.1) cb
  circular_buffer_fromstring cb s.payload

/-! The sandbox host (lua_sandbox.c, lua_sandbox_private.c,
lua_sandbox_interface.c). -/

/-- sandbox_status (sandbox.h lines 21..25). -/
inductive sandbox_status where
  | UNKNOWN
  | RUNNING
  | TERMINATED
deriving Repr, DecidableEq

/-- One limit/current/maximum triple of the usage matrix
(lua_sandbox_private.h line 34, unsigned 32-bit counters). -/
structure usage_stats where
  m_limit : Nat
  m_current : Nat
  m_maximum : Nat
deriving Repr, DecidableEq

/-- memory_manager (lua_sandbox_private.c lines 46..72), the installed
lua_Alloc.  alloc_ok tells whether the C realloc succeeded.  The unsigned
new_state_memory is the 32-bit reduction of current + nsize - osize; the
result Bool is nptr != NULL.  (sandbox_memory_manager in lua_sandbox.c
lines 76..97, the older revision, computes the same quantity through a
signed int whose int-vs-unsigned comparison against the limit coincides on
two's complement.) -/
def memory_manager (u : usage_stats) (osize nsize : Nat) (alloc_ok : Bool) :
    usage_stats × Bool :=
  if nsize = 0 then
    ({ u with m_current := ((((u.m_current : Int) - (osize : Int)) % (2 ^ 32)).toNat) },
      false)
  else
    let new_state_memory : Nat :=
      ((((u.m_current : Int) + (nsize : Int) - (osize : Int)) % (2 ^ 32)).toNat)
    if new_state_memory ≤ u.m_limit then
      if alloc_ok then
        ({ u with
            m_current := new_state_memory
            m_maximum := if new_state_memory > u.m_maximum then new_state_memory
              else u.m_maximum }, true)
      else (u, false)
    else (u, false)

/-- The sandbox state the host-call and output theorems use: status, the
bounded error-message slot, the output buffer (m_pos is the byte count, the
list the bytes) and the output usage triple (struct lua_sandbox,
lua_sandbox_private.h lines 27..36; the memory and instruction triples are
handled by memory_manager and the Lua hook counter). -/
structure lua_sandbox where
  m_status : sandbox_status
  m_error_message : List Char
  m_output : List Char
  m_usage_output : usage_stats
deriving Repr, DecidableEq

/-- update_output_stats (lua_sandbox_private.c lines 100..108): commit the
buffer position to the output current counter and raise the maximum. -/
def update_output_stats (lsb : lua_sandbox) : lua_sandbox :=
  let cur := lsb.m_output.length
  { lsb with m_usage_output :=
      { lsb.m_usage_output with
          m_current := cur
          m_maximum := if cur > lsb.m_usage_output.m_maximum then cur
            else lsb.m_usage_output.m_maximum } }

/-- One Lua argument of the script-visible output(...) (lua_sandbox_private.c
lines 804..894).  The table and circular-buffer cases delegate to the JSON
serializer and output_circular_buffer with the same buffer accounting; the
accounting theorems quantify over the scalar cases, whose appended bytes are
produced here exactly as the C does. -/
inductive output_arg where
  | num (q : ℚ)
  | str (s : List Char)
  | nil
  | boolean (b : Bool)
deriving Repr, DecidableEq

/-- The bytes one output(...) argument appends: numbers via serialize_double,
strings verbatim, nil and booleans as literal text.  none is a failed append
(result = 1 in the C). -/
def output_append : output_arg → Option (List Char)
  | output_arg.num q => serialize_double q
  | output_arg.str s => some s
  | output_arg.nil => some (("nil").toList)
  | output_arg.boolean b => some (if b then ("true").toList else ("false").toList)

/-- The argument loop of output() (lines 819..883): append until a failure
sets result. -/
def output_loop (buf : List Char) : List output_arg → List Char × Bool
  | [] => (buf, false)
  | a :: rest =>
    match output_append a with
    | Option.none => (buf, true)
    | some s => output_loop (buf ++ s) rest

/-- How a call into a Lua C function returns: normally, or by raising a Lua
error (luaL_error, a longjmp carrying the message). -/
inductive call_result where
  | normal
  | raised (msg : List Char)
deriving Repr, DecidableEq

/-- output() (lua_sandbox_private.c lines 804..894): the argument loop, then
update_output_stats, then the error raise when an append failed or the
committed current exceeds the output limit — "output_limit exceeded" when no
other error message is pending. -/
def output_call (lsb : lua_sandbox) (args : List output_arg) :
    lua_sandbox × call_result :=
  if args = [] then
    (lsb, call_result.raised (("output() must have at least one argument").toList))
  else
    let r := output_loop lsb.m_output args
    let lsb := update_output_stats { lsb with m_output := r.1 }
    if r.2 = true ∨ lsb.m_usage_output.m_current > lsb.m_usage_output.m_limit then
      (lsb, call_result.raised
        (if lsb.m_error_message = [] then ("output_limit exceeded").toList
          else lsb.m_error_message))
    else (lsb, call_result.normal)

/-- lsb_terminate: close the interpreter, record the error and set
STATUS_TERMINATED.  The function itself lives in the external luasandbox
library; its effect on the modelled fields follows sandbox_terminate
(lua_sandbox_private.c lines 89..97) plus the error slot it is given. -/
def lsb_terminate (lsb : lua_sandbox) (err : List Char) : lua_sandbox :=
  { lsb with m_status := sandbox_status.TERMINATED, m_error_message := err }

/-- What the protected call of a script entry point produced: a normal
return (for process_message a status and an optional error string), an
uncaught Lua error with its message, or a return of the wrong shape. -/
inductive script_result where
  | ok (status : Int) (err : Option (List Char))
  | err_raised (msg : List Char)
  | bad_return
deriving Repr, DecidableEq

/-- process_message (lua_sandbox_interface.c lines 22..89), parametric in
what the script's protected call did.  On an uncaught error the message is
prefixed with "process_message() "; when its last seven characters are
"aborted" the sandbox is not terminated (lines 42..46), else lsb_terminate
runs; either way the call returns 1.  The model assumes the formatted
message fits the LSB_ERROR_SIZE buffer (the theorems carry that bound);
beyond it the C reads past the truncated buffer. -/
def process_message (lsb : lua_sandbox) (r : script_result) :
    lua_sandbox × Int :=
  match r with
  | script_result.err_raised msg =>
    let err := ("process_message() ").toList ++ msg
    if err.drop (err.length - 7) = ("aborted").toList then (lsb, 1)
    else (lsb_terminate lsb err, 1)
  | script_result.ok status err =>
    ({ lsb with m_error_message := err.getD [] }, status)
  | script_result.bad_return =>
    (lsb_terminate lsb (("process_message() must return a numeric status code").toList), 1)

/-- timer_event (lua_sandbox_interface.c lines 92..129): on an uncaught
error the raw message's length is checked first (lines 116..123); a message
shorter than seven characters terminates, otherwise its last seven
characters decide. -/
def timer_event (lsb : lua_sandbox) (r : script_result) :
    lua_sandbox × Int :=
  match r with
  | script_result.err_raised msg =>
    let err := ("timer_event() ").toList ++ msg
    if msg.length < 7 then (lsb_terminate lsb err, 1)
    else if msg.drop (msg.length - 7) = ("aborted").toList then (lsb, 1)
    else (lsb_terminate lsb err, 1)
  | _ => (lsb, 0)

/-- MAX_MEMORY (lua_sandbox_private.h line 16). -/
def MAX_MEMORY : Nat := 1024 * 1024 * 8

/-- MAX_INSTRUCTION (lua_sandbox_private.h line 17). -/
def MAX_INSTRUCTION : Nat := 1000000

/-- MAX_OUTPUT (lua_sandbox_private.h line 18). -/
def MAX_OUTPUT : Nat := 1024 * 63

/-- The freshly created sandbox before init (the field initialization of
lua_sandbox_create, lua_sandbox.c lines 666..685, extended with the output
triple of the usage matrix). -/
structure created_sandbox where
  m_memory : usage_stats
  m_instructions : usage_stats
  m_output_usage : usage_stats
  m_status : sandbox_status
  m_error_message : List Char
deriving Repr, DecidableEq

/-- Modelled from the spec: the five-argument lua_sandbox_create is declared
in src/sandbox/lua/lua_sandbox.h (lines 16..34) with an output_limit
parameter, but the repository's src only holds an older four-argument
implementation (lua_sandbox.c lines 658..687) that checks
mem_limit > MAX_MEMORY and inst_limit > MAX_INSTRUCTIONS; the five-argument
body is missing.  Following the header documentation and spec §4.1 (limits
at most MAX_MEMORY, MAX_INSTRUCTIONS, MAX_OUTPUT; null when any limit
exceeds its ceiling), with the ceilings of lua_sandbox_private.h and the
field initialization of the four-argument implementation. -/
def lua_sandbox_create (mem_limit inst_limit output_limit : Nat) :
    Option created_sandbox :=
  if mem_limit > MAX_MEMORY ∨ inst_limit > MAX_INSTRUCTION
      ∨ output_limit > MAX_OUTPUT then
    none
  else
    some
      { m_memory := { m_limit := mem_limit, m_current := 0, m_maximum := 0 }
        m_instructions := { m_limit := inst_limit, m_current := 0, m_maximum := 0 }
        m_output_usage := { m_limit := output_limit, m_current := 0, m_maximum := 0 }
        m_status := sandbox_status.UNKNOWN
        m_error_message := [] }

/-! The protobuf writer (lua_sandbox_private.c lines 311..351 and 1094..1112,
duplicated in lua_sandbox_protobuf.c). -/

/-- The Uuid section of serialize_table_as_pb (lua_sandbox_private.c lines
315..327): after resetting the position, write the field-1 tag byte
2 | (1 << 3) and the length 16, then sixteen bytes rand() %% 255, then force
the version nibble at absolute buffer index 8 (Uuid byte 6) and the variant
bits at index 10 (Uuid byte 8).  rands are the successive rand() values. -/
def serialize_table_as_pb_uuid (rands : List Nat) : List Nat :=
  let buf := (2 ||| (1 <<< 3)) :: 16 :: (rands.take 16).map (fun r => r % 255)
  let buf := buf.set 8 (((buf.getD 8 0) &&& 0x0F) ||| 0x40)
  let buf := buf.set 10 (((buf.getD 10 0) &&& 0x0F) ||| 0xA0)
  buf

/-- The sixteen Uuid bytes of the emitted message: the buffer after its
two-byte tag/length prefix. -/
def pb_uuid (rands : List Nat) : List Nat :=
  (serialize_table_as_pb_uuid rands).drop 2

/-- The while loop of pb_write_varint (lua_sandbox_private.c lines
1106..1109) on a C long long: emit (i & 0x7F) | 0x80 and shift i right by
seven.  On two's complement the arithmetic shift is flooring division by
128 and the low bits are the nonnegative remainder.  The fuel counts loop
iterations; none means the loop has not finished within the fuel, and a
negative i never finishes for any fuel (the shift fixes -1). -/
def pb_write_varint_loop : Nat → Int → List Nat → Option (List Nat)
  | 0, i, acc => if i = 0 then some acc else none
  | fuel + 1, i, acc =>
    if i = 0 then some acc
    else pb_write_varint_loop fuel (Int.fdiv i 128)
      (acc ++ [((i.emod 128).toNat ||| 0x80)])

/-- pb_write_varint (lines 1094..1112): the zero special case, the loop,
then clearing the continuation bit of the last byte. -/
def pb_write_varint (fuel : Nat) (i : Int) : Option (List Nat) :=
  if i = 0 then some [0]
  else
    match pb_write_varint_loop fuel i [] with
    | Option.none => none
    | some bytes => some (bytes.dropLast ++ [bytes.getLastD 0 &&& 0x7F])

/-! The table serializers (lua_sandbox_private.c lines 521..652). -/

/-- A Lua value as the serializers see it.  Tables are entry lists in
iteration order; functions, threads and non-circular-buffer userdata, which
both serializers skip by type, are outside the model, and the modelled
tables carry no metatable (script-created tables have none; the marker
metatables sit only on the core-library tables). -/
inductive LuaValue where
  | nil
  | boolean (b : Bool)
  | num (q : ℚ)
  | str (s : List Char)
  | table (entries : List (LuaValue × LuaValue))

/-- The escape table of serialize_data_as_json's string loop (lines
440..483). -/
def jsonEscapeChar (ch : Char) : List Char :=
  if ch = '"' then ['\\', '"']
  else if ch = '\\' then ['\\', '\\']
  else if ch = '/' then ['\\', '/']
  else if ch = Char.ofNat 8 then ['\\', 'b']
  else if ch = Char.ofNat 12 then ['\\', 'f']
  else if ch = Char.ofNat 10 then ['\\', 'n']
  else if ch = Char.ofNat 13 then ['\\', 'r']
  else if ch = Char.ofNat 9 then ['\\', 't']
  else [ch]

/-- serialize_data_as_json (lines 415..502): numbers through
serialize_double, strings quoted and escaped (the loop writes the opening
quote at index 0, so the empty string yields only its closing quote),
booleans as literals, anything else the error "cannot preserve type". -/
def serialize_data_as_json : LuaValue → Option (List Char)
  | LuaValue.num q => serialize_double q
  | LuaValue.str s =>
    if s = [] then some ['"']
    else some ('"' :: s.flatMap jsonEscapeChar ++ ['"'])
  | LuaValue.boolean b => some (if b then ("true").toList else ("false").toList)
  | _ => none

/-- ignore_key (lines 591..600): only a string key whose first byte is an
underscore is skipped; a numeric key is not. -/
def ignore_key : LuaValue → Bool
  | LuaValue.str (ch :: _) => ch = '_'
  | _ => false

/-- ignore_value_type_json (lines 714..732) on the modelled values: nil is
skipped; the skipped types userdata, function, thread and lightuserdata and
the metatable-bearing tables are outside the LuaValue model. -/
def ignore_value_type_json : LuaValue → Bool
  | LuaValue.nil => true
  | _ => false

/-- The lua_rawgeti(table, 1) nil test deciding hash versus array emission
(lines 625..634): is the number 1 present among the keys. -/
def isNumOneKey : LuaValue → Bool
  | LuaValue.num q => q == 1
  | _ => false

/-- The entry loop of serialize_table_as_json (lines 277..308) on a local
buffer, parametric in the per-entry serializer: before each entry append a
comma when the previous entry produced output, remember the position,
append the entry, and record whether it produced output.  Returns
(buffer, had_output, start); the caller performs the trailing-comma removal
of lines 300..306.  (The C start is a position in the global buffer, which
already holds the opening brace, so its "start != 0" guard and the local
one agree on when a comma is trimmed: a comma can only sit at start - 1 ≥ 1
after some entry produced output.) -/
def serialize_table_as_json_go
    (kvpFn : LuaValue → LuaValue → Bool → Option (List Char)) (isHash : Bool) :
    List (LuaValue × LuaValue) → List Char → Bool → Nat →
      Option (List Char × Bool × Nat)
  | [], buf, had_output, start0 => some (buf, had_output, start0)
  | (k, v) :: rest, buf, had_output, _start =>
    let buf1 := if had_output then buf ++ [','] else buf
    let start1 := buf1.length
    match kvpFn k v isHash with
    | Option.none => none
    | some piece =>
      serialize_table_as_json_go kvpFn isHash rest (buf1 ++ piece)
        (!piece.isEmpty) start1

/-- serialize_kvp_as_json (lines 603..652).  Result: the bytes this entry
appends to the output buffer, [] when the entry is skipped, none on an
error.  The seen-pointer table (find_table_ref/add_table_ref) never hits on
the tree-shaped values of the model — every nested table is a fresh pointer
— so the cycle error cannot fire here and registration succeeds.  The fuel
bounds nesting depth; every terminating C run corresponds to a large enough
fuel. -/
def serialize_kvp_as_json : Nat → LuaValue → LuaValue → Bool → Option (List Char)
  | 0, _, _, _ => none
  | fuel + 1, k, v, isHash =>
    if ignore_value_type_json v then some []
    else if ignore_key k then some []
    else
      let keyout? : Option (List Char) :=
        if isHash then
          match serialize_data_as_json k with
          | Option.none => none
          | some ks => some (ks ++ [':'])
        else some []
      match keyout? with
      | Option.none => none
      | some keyout =>
        match v with
        | LuaValue.table entries =>
          let hash := !(entries.any (fun e => isNumOneKey e.1))
          match serialize_table_as_json_go (serialize_kvp_as_json fuel) hash
              entries [] false 0 with
          | Option.none => none
          | some r =>
            let body :=
              if r.2.2 ≠ 0 ∧ r.2.1 = false ∧ r.1.getD (r.2.2 - 1) ' ' = ',' then
                r.1.take (r.2.2 - 1)
              else r.1
            some (keyout ++ (if hash then ['{'] else ['['])
              ++ body ++ (if hash then ['}'] else [']']))
        | _ =>
          match serialize_data_as_json v with
          | Option.none => none
          | some vs => some (keyout ++ vs)

/-- A model of the Lua string.format "%q" quoting used by the preservation
serializer's serialize_data (lines 382..384): quote, and escape the bytes
Lua's %q escapes.  The quoting itself is Lua's, external to the repository;
only that it emits a nonempty quoted literal matters to the theorems. -/
def lua_format_q (s : List Char) : List Char :=
  '"' :: (s.flatMap (fun ch =>
    if ch = '"' ∨ ch = '\\' then ['\\', ch]
    else if ch = Char.ofNat 10 then ['\\', Char.ofNat 10]
    else if ch = Char.ofNat 13 then ['\\', 'r']
    else if ch = Char.ofNat 0 then ['\\', '0']
    else [ch])) ++ ['"']

/-- serialize_data of the preservation serializer (lua_sandbox_private.c
lines 354..412): numbers through serialize_double, strings through the %q
quoting, booleans as literals, anything else the error "cannot preserve
type". -/
def serialize_data : LuaValue → Option (List Char)
  | LuaValue.num q => serialize_double q
  | LuaValue.str s => some (lua_format_q s)
  | LuaValue.boolean b => some (if b then ("true").toList else ("false").toList)
  | _ => none

/-- ignore_value_type of the preservation serializer (lines 684..711) on
the modelled values: nil is skipped — there is no key filter.  The skipped
types (functions, threads, lightuserdata, metatable-bearing tables, the
globals table, foreign userdata) are outside the LuaValue model. -/
def ignore_value_type : LuaValue → Bool
  | LuaValue.nil => true
  | _ => false

/-- serialize_kvp of the preservation serializer (lines 521..588) for one
entry under the given key path: skip only by value type, serialize the key
(any key — numeric and underscore-prefixed ones included), and emit
"<keypath>[<key>] = <value>\n" for scalars or the first-occurrence
"<keypath>[<key>] = {}\n" line for a table (whose children the C then
recurses into; the shared-table alias path needs the seen-pointer table
that tree-shaped values never hit). -/
def serialize_kvp (keypath : List Char) (k v : LuaValue) : Option (List Char) :=
  if ignore_value_type v then some []
  else
    match serialize_data k with
    | Option.none => none
    | some ks =>
      match v with
      | LuaValue.table _ =>
        some (keypath ++ '[' :: ks ++ [']'] ++ (" = ").toList
          ++ ['{', '}'] ++ [Char.ofNat 10])
      | _ =>
        match serialize_data v with
        | Option.none => none
        | some vs =>
          some (keypath ++ '[' :: ks ++ [']'] ++ (" = ").toList
            ++ vs ++ [Char.ofNat 10])

/-- Well-formedness of a circular buffer: the constructor checks of
circular_buffer_new, the alignment of m_current_time to the row width
(established by new and preserved by every advance, which sets it to a
bucket), and the dense matrix size. -/
def CircularBuffer.WF (cb : CircularBuffer) : Prop :=
  1 < cb.m_rows ∧ 0 < cb.m_columns ∧ 0 < cb.m_seconds_per_row ∧
    cb.m_current_time % cb.m_seconds_per_row = 0 ∧
    cb.m_values.length = cb.m_rows * cb.m_columns ∧
    cb.m_seconds_per_row ≤ 3600

/-- Well-formedness of the stored headers: one per column, inside the
strncpy bounds and already sanitized — what circular_buffer_new establishes
and circular_buffer_set_header preserves. -/
def CircularBuffer.HeadersWF (cb : CircularBuffer) : Prop :=
  cb.m_headers.length = cb.m_columns ∧
    ∀ h ∈ cb.m_headers, h.m_name.length ≤ 15 ∧ sanitize_name h.m_name = h.m_name
      ∧ h.m_unit.length ≤ 7 ∧ sanitize_unit h.m_unit = h.m_unit

/-- The successive cell writes of the fromstring fill loop, as a list
function: write the parsed values at consecutive positions. -/
def write_from : List ℚ → Nat → List ℚ → List ℚ
  | vals, _, [] => vals
  | vals, pos, c :: cs => write_from (vals.set pos c) (pos + 1) cs

/-- A double that serialize_double reproduces exactly: at most eight decimal
fraction digits and an integer part below INT_MAX. -/
def exact_decimal8 (v : ℚ) : Prop :=
  ∃ (s : Bool) (n f : Nat), n ≤ 2147483646 ∧ f < 10 ^ 8 ∧
    v = (if s then -1 else 1) * ((n : ℚ) + (f : ℚ) / 10 ^ 8)

/-! Helper lemmas. -/

theorem natLsbDigitsGo_eq_digits : ∀ (fuel n : Nat), 0 < n → n ≤ fuel →
    natLsbDigitsGo fuel n = Nat.digits 10 n
  | 0, n, hn, hle => by omega
  | fuel + 1, n, hn, hle => by
    rw [natLsbDigitsGo]
    by_cases h10 : n < 10
    · rw [if_pos h10, Nat.digits_def' (by norm_num) hn,
        Nat.mod_eq_of_lt h10, Nat.div_eq_of_lt h10]
      simp
    · rw [if_neg h10, Nat.digits_def' (by norm_num) hn,
        natLsbDigitsGo_eq_digits fuel (n / 10) (by omega) (by omega)]

theorem natLsbDigits_eq_digits (n : Nat) (hn : 0 < n) :
    natLsbDigits n = Nat.digits 10 n :=
  natLsbDigitsGo_eq_digits n n hn le_rfl

theorem ofDigits_natLsbDigits (n : Nat) :
    Nat.ofDigits 10 (natLsbDigits n) = n := by
  cases Nat.eq_zero_or_pos n with
  | inl h0 => subst h0; decide
  | inr hpos => rw [natLsbDigits_eq_digits n hpos, Nat.ofDigits_digits]

theorem natLsbDigits_lt (n : Nat) : ∀ d ∈ natLsbDigits n, d < 10 := by
  cases Nat.eq_zero_or_pos n with
  | inl h0 => subst h0; decide
  | inr hpos =>
    rw [natLsbDigits_eq_digits n hpos]
    exact fun d hd => Nat.digits_lt_base (by norm_num) hd

theorem natLsbDigits_ne_nil (n : Nat) : natLsbDigits n ≠ [] := by
  cases Nat.eq_zero_or_pos n with
  | inl h0 => subst h0; decide
  | inr hpos =>
    rw [natLsbDigits_eq_digits n hpos]
    exact Nat.digits_ne_nil_iff_ne_zero.mpr (by omega)

theorem charDigit_digitChar : ∀ d < 10, charDigit (digitChar d) = d := by decide

theorem isDigit_digitChar : ∀ d < 10, isDigitCharB (digitChar d) = true := by decide

theorem natMsbChars_ne_nil (n : Nat) : natMsbChars n ≠ [] := by
  rw [natMsbChars]
  intro h
  exact natLsbDigits_ne_nil n (by simpa using congrArg List.reverse h)

theorem natMsbChars_digits (n : Nat) : ∀ c ∈ natMsbChars n, isDigitCharB c = true := by
  intro c hc
  rw [natMsbChars, List.mem_reverse, List.mem_map] at hc
  obtain ⟨d, hd, rfl⟩ := hc
  exact isDigit_digitChar d (natLsbDigits_lt n d hd)

theorem natMsbChars_value (n : Nat) :
    Nat.ofDigits 10 (((natMsbChars n).map charDigit).reverse) = n := by
  rw [natMsbChars, List.map_reverse, List.reverse_reverse, List.map_map]
  have h1 : List.map (charDigit ∘ digitChar) (natLsbDigits n)
      = List.map id (natLsbDigits n) :=
    List.map_congr_left (fun d hd => charDigit_digitChar d (natLsbDigits_lt n d hd))
  rw [h1, List.map_id, ofDigits_natLsbDigits]

theorem fracDigits_succ (m f : Nat) (b : Bool) :
    fracDigits (m + 1) f b
      = if f % 10 = 0 ∧ b = true then fracDigits m (f / 10) b
        else f % 10 :: fracDigits m (f / 10) false := rfl

theorem fracDigits_false_spec : ∀ (m f : Nat), f < 10 ^ m →
    (fracDigits m f false).length = m ∧
      Nat.ofDigits 10 (fracDigits m f false) = f ∧
      ∀ d ∈ fracDigits m f false, d < 10
  | 0, f, hf => by
    refine ⟨rfl, ?_, by simp [fracDigits]⟩
    simp only [fracDigits, Nat.ofDigits_nil]
    omega
  | m + 1, f, hf => by
    have ih := fracDigits_false_spec m (f / 10)
      (by rw [pow_succ] at hf; omega)
    rw [fracDigits_succ, if_neg (by simp)]
    refine ⟨by simpa using ih.1, ?_, ?_⟩
    · rw [Nat.ofDigits_cons, ih.2.1]
      omega
    · intro d hd
      rw [List.mem_cons] at hd
      rcases hd with rfl | hd
      · omega
      · exact ih.2.2 d hd

theorem fracDigits_true_spec : ∀ (m f : Nat), 0 < f → f < 10 ^ m →
    Nat.ofDigits 10 (fracDigits m f true) * 10 ^ (m - (fracDigits m f true).length) = f ∧
      fracDigits m f true ≠ [] ∧
      (fracDigits m f true).length ≤ m ∧
      ∀ d ∈ fracDigits m f true, d < 10
  | 0, f, hpos, hf => by omega
  | m + 1, f, hpos, hf => by
    rw [fracDigits_succ]
    by_cases h0 : f % 10 = 0
    · rw [if_pos ⟨h0, rfl⟩]
      have hdiv : 0 < f / 10 := by omega
      have ih := fracDigits_true_spec m (f / 10) hdiv
        (by rw [pow_succ] at hf; omega)
      refine ⟨?_, ih.2.1, by omega, ih.2.2.2⟩
      have hlen := ih.2.2.1
      have hsub : m + 1 - (fracDigits m (f / 10) true).length
          = (m - (fracDigits m (f / 10) true).length) + 1 := by omega
      rw [hsub, pow_succ, ← Nat.mul_assoc, ih.1]
      omega
    · rw [if_neg (by simp [h0])]
      have ihf := fracDigits_false_spec m (f / 10)
        (by rw [pow_succ] at hf; omega)
      refine ⟨?_, by simp, ?_, ?_⟩
      · simp only [List.length_cons, ihf.1]
        rw [Nat.sub_self, pow_zero, Nat.mul_one, Nat.ofDigits_cons, ihf.2.1]
        omega
      · simp [ihf.1]
      · intro d hd
        rw [List.mem_cons] at hd
        rcases hd with rfl | hd
        · omega
        · exact ihf.2.2 d hd

theorem takeWhile_all_eq {p : Char → Bool} : ∀ (s : List Char),
    (∀ c ∈ s, p c = true) → s.takeWhile p = s
  | [], _ => rfl
  | c :: t, h => by
    rw [List.takeWhile_cons, if_pos (h c (List.mem_cons_self c t)),
      takeWhile_all_eq t (fun x hx => h x (List.mem_cons_of_mem c hx))]

theorem dropWhile_all_eq {p : Char → Bool} : ∀ (s : List Char),
    (∀ c ∈ s, p c = true) → s.dropWhile p = []
  | [], _ => rfl
  | c :: t, h => by
    rw [List.dropWhile_cons, if_pos (h c (List.mem_cons_self c t)),
      dropWhile_all_eq t (fun x hx => h x (List.mem_cons_of_mem c hx))]

theorem takeWhile_append_break {p : Char → Bool} (x : Char) (t : List Char)
    (hx : p x = false) : ∀ (s : List Char), (∀ c ∈ s, p c = true) →
    (s ++ x :: t).takeWhile p = s
  | [], _ => by simp [List.takeWhile_cons, hx]
  | c :: s', h => by
    rw [List.cons_append, List.takeWhile_cons,
      if_pos (h c (List.mem_cons_self c s')),
      takeWhile_append_break x t hx s' (fun y hy => h y (List.mem_cons_of_mem c hy))]

theorem dropWhile_append_break {p : Char → Bool} (x : Char) (t : List Char)
    (hx : p x = false) : ∀ (s : List Char), (∀ c ∈ s, p c = true) →
    (s ++ x :: t).dropWhile p = x :: t
  | [], _ => by simp [List.dropWhile_cons, hx]
  | c :: s', h => by
    rw [List.cons_append, List.dropWhile_cons,
      if_pos (h c (List.mem_cons_self c s')),
      dropWhile_append_break x t hx s' (fun y hy => h y (List.mem_cons_of_mem c hy))]

theorem parseDecCore_digits (s : List Char) (hne : s ≠ [])
    (hdig : ∀ c ∈ s, isDigitCharB c = true) :
    parseDecCore s = some ((Nat.ofDigits 10 ((s.map charDigit).reverse) : ℕ) : ℚ) := by
  simp only [parseDecCore, takeWhile_all_eq s hdig, dropWhile_all_eq s hdig,
    if_neg hne]
  simp

theorem dot_not_digit : isDigitCharB '.' = false := rfl

theorem parseDecCore_digits_dot (s t : List Char) (hne : s ≠ [])
    (hds : ∀ c ∈ s, isDigitCharB c = true)
    (hdt : ∀ c ∈ t, isDigitCharB c = true) :
    parseDecCore (s ++ '.' :: t)
      = some (((Nat.ofDigits 10 ((s.map charDigit).reverse) : ℕ) : ℚ)
          + ((Nat.ofDigits 10 ((t.map charDigit).reverse) : ℕ) : ℚ) / 10 ^ t.length) := by
  simp only [parseDecCore, takeWhile_append_break '.' t dot_not_digit s hds,
    dropWhile_append_break '.' t dot_not_digit s hds, if_neg hne,
    List.headD_cons, List.tail_cons]
  rw [if_neg (by simp), if_pos trivial, if_pos (by rw [List.all_eq_true]; exact hdt)]

theorem parseDec_of_core (neg : Bool) (body : List Char) (q : ℚ)
    (hbody : body ≠ [])
    (hhead : isDigitCharB (body.headD ' ') = true)
    (hcore : parseDecCore body = some q) :
    parseDec ((if neg then ['-'] else []) ++ body) = some (if neg then -q else q) := by
  cases neg with
  | false =>
    cases body with
    | nil => exact absurd rfl hbody
    | cons c rest =>
      have hm : ¬ (c = '-') := by
        intro hcon
        rw [show (c :: rest).headD ' ' = c from rfl, hcon] at hhead
        exact absurd hhead (by decide)
      simp [parseDec, hm, hcore]
  | true =>
    cases body with
    | nil => exact absurd rfl hbody
    | cons c rest =>
      simp [parseDec, hcore]

theorem parseNatToken_natMsbChars (n : Nat) :
    parseNatToken (natMsbChars n) = some n := by
  rw [parseNatToken, if_pos ⟨natMsbChars_ne_nil n,
    by rw [List.all_eq_true]; exact natMsbChars_digits n⟩, natMsbChars_value]

theorem rat_floor_eq_intFloor (q : ℚ) : q.floor = ⌊q⌋ := by
  rw [Rat.floor_def', Rat.floor_def]

theorem serialize_double_eq (d : ℚ) (n f : Nat)
    (hmax : ¬ d > (INT_MAX : ℚ))
    (hneg : ¬ d < 0)
    (hfloor : d.floor = (n : ℤ))
    (hfrac : ((d - (n : ℚ)) * 100000000).floor = (f : ℤ))
    (hd1 : ¬ ((d - (n : ℚ)) * 100000000 - (f : ℚ) > 1 / 2))
    (hd2 : ¬ ((d - (n : ℚ)) * 100000000 - (f : ℚ) = 1 / 2 ∧ (f = 0 ∨ f &&& 1 = 1))) :
    serialize_double d = some (natMsbChars n
      ++ (if f = 0 then [] else '.' :: ((fracDigits 8 f true).map digitChar).reverse)) := by
  simp only [serialize_double, if_neg hmax, if_neg hneg]
  rw [hfloor, Int.toNat_natCast, hfrac, Int.toNat_natCast, if_neg hd1, if_neg hd2]
  by_cases hf0 : f = 0
  · subst hf0
    simp [natMsbChars]
  · rw [if_pos (by simpa using hf0)]
    simp [natMsbChars, List.reverse_append, hf0]

theorem floor_nat_add_fraction (n f : Nat) (hf : f < 10 ^ 8) :
    ((n : ℚ) + (f : ℚ) / 10 ^ 8).floor = (n : ℤ) := by
  rw [rat_floor_eq_intFloor]
  have hfq : ((f : ℚ) / 10 ^ 8) < 1 := by
    rw [div_lt_one (by norm_num)]
    exact_mod_cast hf
  have hfq0 : (0 : ℚ) ≤ (f : ℚ) / 10 ^ 8 := by positivity
  rw [Int.floor_eq_iff]
  constructor
  · push_cast
    linarith
  · push_cast
    linarith

theorem frac_scale_exact (n f : Nat) :
    (((n : ℚ) + (f : ℚ) / 10 ^ 8 - (n : ℚ)) * 100000000) = (f : ℚ) := by
  have h8 : ((10 : ℚ) ^ 8) = 100000000 := by norm_num
  rw [h8]
  field_simp
  ring

theorem serialize_double_exact (n f : Nat) (hn : n ≤ 2147483646) (hf : f < 10 ^ 8) :
    serialize_double ((n : ℚ) + (f : ℚ) / 10 ^ 8)
      = some (natMsbChars n
        ++ (if f = 0 then [] else '.' :: ((fracDigits 8 f true).map digitChar).reverse)) := by
  have hfq : ((f : ℚ) / 10 ^ 8) < 1 := by
    rw [div_lt_one (by norm_num)]
    exact_mod_cast hf
  have hfq0 : (0 : ℚ) ≤ (f : ℚ) / 10 ^ 8 := by positivity
  refine serialize_double_eq _ n f ?_ ?_ (floor_nat_add_fraction n f hf) ?_ ?_ ?_
  · rw [INT_MAX]
    push_cast
    have : (n : ℚ) ≤ 2147483646 := by exact_mod_cast hn
    intro hcon
    nlinarith
  · push_neg
    positivity
  · rw [frac_scale_exact]
    rw [rat_floor_eq_intFloor, Int.floor_natCast]
  · rw [frac_scale_exact]
    norm_num
  · rw [frac_scale_exact]
    intro hcon
    have := hcon.1
    norm_num at this

theorem serialize_double_neg_input (d : ℚ) (hd : d < 0) (hle : -d ≤ (INT_MAX : ℚ)) :
    serialize_double d = (serialize_double (-d)).map (fun l => '-' :: l) := by
  have hmax : ¬ d > (INT_MAX : ℚ) := by
    intro hcon
    have : (0 : ℚ) ≤ (INT_MAX : ℚ) := by rw [INT_MAX]; norm_num
    linarith
  have hmax2 : ¬ (-d) > (INT_MAX : ℚ) := not_lt.mpr hle
  have hneg2 : ¬ (-d) < 0 := by linarith
  simp only [serialize_double, if_neg hmax, if_neg hmax2, if_pos hd, if_neg hneg2]
  simp

theorem parse_exact_body (n f : Nat) (hf : f < 10 ^ 8) :
    parseDecCore (natMsbChars n
        ++ (if f = 0 then [] else '.' :: ((fracDigits 8 f true).map digitChar).reverse))
      = some ((n : ℚ) + (f : ℚ) / 10 ^ 8) := by
  by_cases hf0 : f = 0
  · subst hf0
    rw [if_pos rfl, List.append_nil,
      parseDecCore_digits _ (natMsbChars_ne_nil n) (natMsbChars_digits n),
      natMsbChars_value]
    norm_num
  · have hpos : 0 < f := Nat.pos_of_ne_zero hf0
    have spec := fracDigits_true_spec 8 f hpos hf
    rw [if_neg hf0]
    have hdigs : ∀ c ∈ ((fracDigits 8 f true).map digitChar).reverse,
        isDigitCharB c = true := by
      intro c hc
      rw [List.mem_reverse, List.mem_map] at hc
      obtain ⟨d, hd, rfl⟩ := hc
      exact isDigit_digitChar d (spec.2.2.2 d hd)
    rw [parseDecCore_digits_dot _ _ (natMsbChars_ne_nil n) (natMsbChars_digits n) hdigs,
      natMsbChars_value]
    have hmaps : ((((fracDigits 8 f true).map digitChar).reverse).map charDigit).reverse
        = fracDigits 8 f true := by
      rw [List.map_reverse, List.reverse_reverse, List.map_map]
      have h1 : List.map (charDigit ∘ digitChar) (fracDigits 8 f true)
          = List.map id (fracDigits 8 f true) :=
        List.map_congr_left (fun d hd => charDigit_digitChar d (spec.2.2.2 d hd))
      rw [h1, List.map_id]
    rw [hmaps]
    have hlenr : (((fracDigits 8 f true).map digitChar).reverse).length
        = (fracDigits 8 f true).length := by simp
    rw [hlenr]
    have key : ((Nat.ofDigits 10 (fracDigits 8 f true) : ℕ) : ℚ)
        * 10 ^ (8 - (fracDigits 8 f true).length) = (f : ℚ) := by
      exact_mod_cast spec.1
    have hpow : (10 : ℚ) ^ (8 - (fracDigits 8 f true).length)
        * 10 ^ (fracDigits 8 f true).length = 10 ^ 8 := by
      rw [← pow_add]
      congr 1
      have := spec.2.2.1
      omega
    have hval : ((Nat.ofDigits 10 (fracDigits 8 f true) : ℕ) : ℚ)
        / 10 ^ (fracDigits 8 f true).length = (f : ℚ) / 10 ^ 8 := by
      rw [div_eq_div_iff (by positivity) (by positivity), ← hpow, ← key]
      ring
    rw [hval]

theorem serialize_parse_roundtrip (v : ℚ)
    (h : ∃ (sg : Bool) (n f : Nat), n ≤ 2147483646 ∧ f < 10 ^ 8 ∧
      v = (if sg then -1 else 1) * ((n : ℚ) + (f : ℚ) / 10 ^ 8)) :
    ∃ out, serialize_double v = some out ∧ parseDec out = some v := by
  obtain ⟨sg, n, f, hn, hf, hv⟩ := h
  have hser := serialize_double_exact n f hn hf
  have hcore := parse_exact_body n f hf
  have hbody_ne : natMsbChars n
      ++ (if f = 0 then [] else '.' :: ((fracDigits 8 f true).map digitChar).reverse)
      ≠ [] := by
    intro hcon
    exact natMsbChars_ne_nil n (List.append_eq_nil.mp hcon).1
  have hhead : isDigitCharB ((natMsbChars n
      ++ (if f = 0 then [] else '.' :: ((fracDigits 8 f true).map digitChar).reverse)).headD ' ')
      = true := by
    cases hmc : natMsbChars n with
    | nil => exact absurd hmc (natMsbChars_ne_nil n)
    | cons c cs =>
      rw [List.cons_append, List.headD_cons]
      exact natMsbChars_digits n c (by rw [hmc]; exact List.mem_cons_self c cs)
  have hfq1 : ((f : ℚ) / 10 ^ 8) < 1 := by
    rw [div_lt_one (by norm_num)]
    exact_mod_cast hf
  have hfq0 : (0 : ℚ) ≤ (f : ℚ) / 10 ^ 8 := by positivity
  have hn0 : (0 : ℚ) ≤ (n : ℚ) := by positivity
  cases sg with
  | false =>
    have hveq : v = (n : ℚ) + (f : ℚ) / 10 ^ 8 := by rw [hv]; norm_num
    refine ⟨_, by rw [hveq]; exact hser, ?_⟩
    have hp := parseDec_of_core false _ _ hbody_ne hhead hcore
    simp only [Bool.false_eq_true, if_false, List.nil_append] at hp
    rw [hp, hveq]
  | true =>
    by_cases hz : n = 0 ∧ f = 0
    · have hveq : v = (n : ℚ) + (f : ℚ) / 10 ^ 8 := by
        rw [hv, hz.1, hz.2]
        norm_num
      refine ⟨_, by rw [hveq]; exact hser, ?_⟩
      have hp := parseDec_of_core false _ _ hbody_ne hhead hcore
      simp only [Bool.false_eq_true, if_false, List.nil_append] at hp
      rw [hp, hveq]
    · have hpos : (0 : ℚ) < (n : ℚ) + (f : ℚ) / 10 ^ 8 := by
        rcases Nat.eq_zero_or_pos n with hn00 | hnp
        · have hfp : 0 < f := by
            rcases Nat.eq_zero_or_pos f with hf00 | hfp
            · exact absurd ⟨hn00, hf00⟩ hz
            · exact hfp
          have h1 : (0 : ℚ) < (f : ℚ) := by exact_mod_cast hfp
          have h2 : (0 : ℚ) < (f : ℚ) / 10 ^ 8 := by positivity
          linarith
        · have h1 : (1 : ℚ) ≤ (n : ℚ) := by exact_mod_cast hnp
          linarith
      have hvneg : v < 0 := by
        rw [hv]
        simp only [if_true]
        linarith
      have hvabs : -v = (n : ℚ) + (f : ℚ) / 10 ^ 8 := by rw [hv]; norm_num
      have hle : -v ≤ (INT_MAX : ℚ) := by
        rw [hvabs, INT_MAX]
        push_cast
        have h1 : (n : ℚ) ≤ 2147483646 := by exact_mod_cast hn
        linarith
      have hserneg := serialize_double_neg_input v hvneg hle
      refine ⟨'-' :: (natMsbChars n
        ++ (if f = 0 then [] else '.' :: ((fracDigits 8 f true).map digitChar).reverse)), ?_, ?_⟩
      · rw [hserneg, hvabs, hser]
        rfl
      · have hp := parseDec_of_core true _ _ hbody_ne hhead hcore
        simp only [if_true, List.singleton_append] at hp
        rw [hp]
        rw [show -((n : ℚ) + (f : ℚ) / 10 ^ 8) = v from by rw [← hvabs]; ring]

theorem list_getD_set_self {α : Type} [Inhabited α] (l : List α) (i : Nat)
    (a d : α) (h : i < l.length) : (l.set i a).getD i d = a := by
  induction l generalizing i with
  | nil => simp at h
  | cons x xs ih =>
    cases i with
    | zero => rfl
    | succ j =>
      simp only [List.set]
      simpa [List.getD] using ih j (by simpa using h)

theorem length_clear_row (values : List ℚ) (columns row : Nat) :
    (clear_row values columns row).length = values.length := by
  simp [clear_row]

theorem length_clear_rows_loop (columns rows : Nat) :
    ∀ (n : Nat) (values : List ℚ) (row : Nat),
      (clear_rows_loop columns rows values row n).length = values.length := by
  intro n
  induction n with
  | zero => intro values row; rfl
  | succ x ih =>
    intro values row
    simp only [clear_rows_loop]
    rw [ih, length_clear_row]

theorem clear_rows_columns (cb : CircularBuffer) (n : Nat) :
    (clear_rows cb n).m_columns = cb.m_columns := by
  unfold clear_rows; split <;> rfl

theorem clear_rows_rows (cb : CircularBuffer) (n : Nat) :
    (clear_rows cb n).m_rows = cb.m_rows := by
  unfold clear_rows; split <;> rfl

theorem clear_rows_seconds (cb : CircularBuffer) (n : Nat) :
    (clear_rows cb n).m_seconds_per_row = cb.m_seconds_per_row := by
  unfold clear_rows; split <;> rfl

theorem clear_rows_values_length (cb : CircularBuffer) (n : Nat) :
    (clear_rows cb n).m_values.length = cb.m_values.length := by
  unfold clear_rows
  split
  · simp
  · simp [length_clear_rows_loop]

theorem bucket_eq_mul (ns S : Nat) (_hS : 0 < S) :
    bucket ns S = S * (ns / 1000000000 / S) := by
  unfold bucket
  have h := Nat.div_add_mod (ns / 1000000000) S
  omega

theorem bucket_div (ns S : Nat) (hS : 0 < S) :
    bucket ns S / S = ns / 1000000000 / S := by
  rw [bucket_eq_mul ns S hS, Nat.mul_div_cancel_left _ hS]

theorem bucket_mod (ns S : Nat) (hS : 0 < S) : bucket ns S % S = 0 := by
  rw [bucket_eq_mul ns S hS]
  simp [Nat.mul_mod_right]

/-- check_row when the requested bucket is ahead of the current time and
advance is set: clear the swept rows, move the clock and the row. -/
theorem check_row_advance (cb : CircularBuffer) (ns : Nat)
    (hS : 0 < cb.m_seconds_per_row)
    (hlt : cb.m_current_time / cb.m_seconds_per_row
      < ns / 1000000000 / cb.m_seconds_per_row) :
    check_row cb ns true =
      ({ clear_rows cb (ns / 1000000000 / cb.m_seconds_per_row
            - cb.m_current_time / cb.m_seconds_per_row) with
          m_current_time := bucket ns cb.m_seconds_per_row
          m_current_row := (ns / 1000000000 / cb.m_seconds_per_row) % cb.m_rows },
        some ((ns / 1000000000 / cb.m_seconds_per_row) % cb.m_rows)) := by
  simp only [check_row, bucket_div _ _ hS]
  rw [if_pos (And.intro (by omega) trivial)]
  rw [show (((ns / 1000000000 / cb.m_seconds_per_row : Nat) : Int)
      - ((cb.m_current_time / cb.m_seconds_per_row : Nat) : Int)).toNat
      = ns / 1000000000 / cb.m_seconds_per_row
        - cb.m_current_time / cb.m_seconds_per_row from by omega]

/-- check_row when the requested bucket is not ahead and lies at least
m_rows rows back: the -1 return, no mutation. -/
theorem check_row_out (cb : CircularBuffer) (ns : Nat) (advance : Bool)
    (hS : 0 < cb.m_seconds_per_row)
    (hge : ns / 1000000000 / cb.m_seconds_per_row
      ≤ cb.m_current_time / cb.m_seconds_per_row)
    (hfar : cb.m_rows ≤ cb.m_current_time / cb.m_seconds_per_row
      - ns / 1000000000 / cb.m_seconds_per_row) :
    check_row cb ns advance = (cb, none) := by
  simp only [check_row, bucket_div _ _ hS]
  rw [if_neg (by intro hcon; omega)]
  rw [if_pos (by omega)]

/-- check_row when the requested bucket is not ahead and lies inside the
window: the row without mutation. -/
theorem check_row_in (cb : CircularBuffer) (ns : Nat) (advance : Bool)
    (hS : 0 < cb.m_seconds_per_row)
    (hge : ns / 1000000000 / cb.m_seconds_per_row
      ≤ cb.m_current_time / cb.m_seconds_per_row)
    (hnear : cb.m_current_time / cb.m_seconds_per_row
      - ns / 1000000000 / cb.m_seconds_per_row < cb.m_rows) :
    check_row cb ns advance =
      (cb, some ((ns / 1000000000 / cb.m_seconds_per_row) % cb.m_rows)) := by
  simp only [check_row, bucket_div _ _ hS]
  rw [if_neg (by intro hcon; omega)]
  rw [if_neg (by intro hcon; omega)]

theorem row_col_index_lt (R C row col : Nat) (hrow : row < R) (hcol : col < C) :
    row * C + col < R * C := by
  calc row * C + col < row * C + C := by omega
  _ = (row + 1) * C := by ring
  _ ≤ R * C := Nat.mul_le_mul_right C hrow

/-- C1.  For every well-formed circular buffer (rows R > 1, columns C > 0,
seconds-per-row S > 0, current time aligned to S), every column c in [1, C],
value v and nonnegative timestamp ns whose row computations fit the C int
(both row indices below 2^31): set(ns, c, v) followed by get(ns, c) with no
intervening operation returns v in both calls if and only if
|bucket(ns) - T_after_set| < S*R, where bucket(ns) = (ns/1e9) - ((ns/1e9)
mod S) and T_after_set is the buffer's current time after the set;
otherwise the set is dropped and both calls return the nil sentinel. -/
theorem C1_set_then_get_window (cb : CircularBuffer) (hwf : cb.WF)
    (ns c : Nat) (v : ℚ) (hc1 : 1 ≤ c) (hc2 : c ≤ cb.m_columns)
    (_hreq : ns / 1000000000 / cb.m_seconds_per_row < 2 ^ 31)
    (_hcur : cb.m_current_time / cb.m_seconds_per_row < 2 ^ 31) :
    ∃ cb2 ret1 ret2,
      circular_buffer_set cb ns c v = some (cb2, ret1) ∧
      circular_buffer_get cb2 ns c = some ret2 ∧
      ((((bucket ns cb.m_seconds_per_row : Int)
            - (cb2.m_current_time : Int)).natAbs
          < cb.m_seconds_per_row * cb.m_rows) →
        ret1 = some v ∧ ret2 = some v) ∧
      (¬ ((((bucket ns cb.m_seconds_per_row : Int)
            - (cb2.m_current_time : Int)).natAbs
          < cb.m_seconds_per_row * cb.m_rows)) →
        ret1 = none ∧ ret2 = none) := by
  obtain ⟨hR, hC, hS, hmod, hlen, hS36⟩ := hwf
  have hTp : cb.m_current_time
      = cb.m_seconds_per_row * (cb.m_current_time / cb.m_seconds_per_row) := by
    have := Nat.div_add_mod cb.m_current_time cb.m_seconds_per_row
    omega
  have hbq : bucket ns cb.m_seconds_per_row
      = cb.m_seconds_per_row * (ns / 1000000000 / cb.m_seconds_per_row) :=
    bucket_eq_mul ns _ hS
  have hpos : 0 < cb.m_seconds_per_row * cb.m_rows := Nat.mul_pos hS (by omega)
  rcases Nat.lt_or_ge (cb.m_current_time / cb.m_seconds_per_row)
      (ns / 1000000000 / cb.m_seconds_per_row) with hpq | hqp
  · -- the bucket is ahead: the set advances the window, T_after = bucket
    have hrow : (ns / 1000000000 / cb.m_seconds_per_row) % cb.m_rows
        < cb.m_rows := Nat.mod_lt _ (by omega)
    have hidx : (ns / 1000000000 / cb.m_seconds_per_row) % cb.m_rows
        * cb.m_columns + (c - 1) < cb.m_rows * cb.m_columns :=
      row_col_index_lt _ _ _ _ hrow (by omega)
    have hset : circular_buffer_set cb ns c v =
        some
          ({ clear_rows cb (ns / 1000000000 / cb.m_seconds_per_row
                - cb.m_current_time / cb.m_seconds_per_row) with
            m_current_time := bucket ns cb.m_seconds_per_row
            m_current_row := ns / 1000000000 / cb.m_seconds_per_row % cb.m_rows
            m_values := List.set (clear_rows cb (ns / 1000000000 / cb.m_seconds_per_row - cb.m_current_time / cb.m_seconds_per_row)).m_values (ns / 1000000000 / cb.m_seconds_per_row % cb.m_rows * cb.m_columns + (c - 1)) v }, some v) := by
      simp only [circular_buffer_set, check_row_advance cb ns hS hpq,
        check_column, clear_rows_columns]
      rw [if_pos (And.intro hc1 hc2)]
    have hget : circular_buffer_get
        ({ clear_rows cb (ns / 1000000000 / cb.m_seconds_per_row
              - cb.m_current_time / cb.m_seconds_per_row) with
          m_current_time := bucket ns cb.m_seconds_per_row
          m_current_row := ns / 1000000000 / cb.m_seconds_per_row % cb.m_rows
          m_values := List.set (clear_rows cb (ns / 1000000000 / cb.m_seconds_per_row - cb.m_current_time / cb.m_seconds_per_row)).m_values (ns / 1000000000 / cb.m_seconds_per_row % cb.m_rows * cb.m_columns + (c - 1)) v }) ns c
        = some (some v) := by
      simp only [circular_buffer_get, check_column, clear_rows_columns]
      rw [check_row_in _ ns false (by simpa [clear_rows_seconds] using hS)
        (by simp [clear_rows_seconds, hbq, Nat.mul_div_cancel_left _ hS])
        (by simp [clear_rows_seconds, clear_rows_rows, hbq,
          Nat.mul_div_cancel_left _ hS]; omega)]
      rw [if_pos (And.intro hc1 hc2)]
      simp only [clear_rows_seconds, clear_rows_columns, clear_rows_rows,
        hbq, Nat.mul_div_cancel_left _ hS]
      rw [list_getD_set_self _ _ _ _
        (by rw [clear_rows_values_length, hlen]; exact hidx)]
    have hcond : (((bucket ns cb.m_seconds_per_row : Nat) : Int)
        - ((bucket ns cb.m_seconds_per_row : Nat) : Int)).natAbs
        < cb.m_seconds_per_row * cb.m_rows := by omega
    exact ⟨_, some v, some v, hset, hget, fun _ => ⟨rfl, rfl⟩,
      fun hno => absurd hcond hno⟩
  · -- the bucket is not ahead: T_after = T, in or out of the window
    have hprod : cb.m_seconds_per_row * (cb.m_current_time / cb.m_seconds_per_row)
        = cb.m_seconds_per_row * (ns / 1000000000 / cb.m_seconds_per_row)
          + cb.m_seconds_per_row * (cb.m_current_time / cb.m_seconds_per_row
            - ns / 1000000000 / cb.m_seconds_per_row) := by
      rw [← Nat.mul_add]
      congr 1
      omega
    rcases Nat.lt_or_ge (cb.m_current_time / cb.m_seconds_per_row
        - ns / 1000000000 / cb.m_seconds_per_row) cb.m_rows with hnear | hfar
    · -- in the window: the cell is written and read back
      have hrow : (ns / 1000000000 / cb.m_seconds_per_row) % cb.m_rows
          < cb.m_rows := Nat.mod_lt _ (by omega)
      have hidx : (ns / 1000000000 / cb.m_seconds_per_row) % cb.m_rows
          * cb.m_columns + (c - 1) < cb.m_rows * cb.m_columns :=
        row_col_index_lt _ _ _ _ hrow (by omega)
      have hSR : cb.m_seconds_per_row * (cb.m_current_time / cb.m_seconds_per_row
            - ns / 1000000000 / cb.m_seconds_per_row)
          < cb.m_seconds_per_row * cb.m_rows := by
        have h1 : cb.m_seconds_per_row * ((cb.m_current_time / cb.m_seconds_per_row
              - ns / 1000000000 / cb.m_seconds_per_row) + 1)
            ≤ cb.m_seconds_per_row * cb.m_rows :=
          Nat.mul_le_mul_left _ hnear
        have h2 : cb.m_seconds_per_row * ((cb.m_current_time / cb.m_seconds_per_row
              - ns / 1000000000 / cb.m_seconds_per_row) + 1)
            = cb.m_seconds_per_row * (cb.m_current_time / cb.m_seconds_per_row
              - ns / 1000000000 / cb.m_seconds_per_row) + cb.m_seconds_per_row := by
          ring
        omega
      have hset : circular_buffer_set cb ns c v =
          some
            ({ cb with m_values := List.set cb.m_values (ns / 1000000000 / cb.m_seconds_per_row % cb.m_rows * cb.m_columns + (c - 1)) v }, some v) := by
        simp only [circular_buffer_set, check_row_in cb ns true hS hqp hnear,
          check_column]
        rw [if_pos (And.intro hc1 hc2)]
      have hget : circular_buffer_get
          ({ cb with m_values := List.set cb.m_values (ns / 1000000000 / cb.m_seconds_per_row % cb.m_rows * cb.m_columns + (c - 1)) v }) ns c
          = some (some v) := by
        simp only [circular_buffer_get, check_column]
        rw [check_row_in ({ cb with m_values := List.set cb.m_values (ns / 1000000000 / cb.m_seconds_per_row % cb.m_rows * cb.m_columns + (c - 1)) v }) ns false hS hqp hnear]
        rw [if_pos (And.intro hc1 hc2)]
        simp only []
        rw [list_getD_set_self _ _ _ _ (by rw [hlen]; exact hidx)]
      have hcond : (((bucket ns cb.m_seconds_per_row : Nat) : Int)
          - ((cb.m_current_time : Nat) : Int)).natAbs
          < cb.m_seconds_per_row * cb.m_rows := by
        rw [hbq, hTp]
        omega
      exact ⟨_, some v, some v, hset, hget, fun _ => ⟨rfl, rfl⟩,
        fun hno => absurd hcond hno⟩
    · -- at least m_rows back: the set is dropped and both calls return nil
      have hSR : cb.m_seconds_per_row * cb.m_rows
          ≤ cb.m_seconds_per_row * (cb.m_current_time / cb.m_seconds_per_row
            - ns / 1000000000 / cb.m_seconds_per_row) :=
        Nat.mul_le_mul_left _ hfar
      have hset : circular_buffer_set cb ns c v = some (cb, none) := by
        simp only [circular_buffer_set, check_row_out cb ns true hS hqp hfar,
          check_column]
        rw [if_pos (And.intro hc1 hc2)]
      have hget : circular_buffer_get cb ns c = some none := by
        simp only [circular_buffer_get, check_column]
        rw [check_row_out cb ns false hS hqp hfar]
        rw [if_pos (And.intro hc1 hc2)]
      have hcond : ¬ ((((bucket ns cb.m_seconds_per_row : Nat) : Int)
          - ((cb.m_current_time : Nat) : Int)).natAbs
          < cb.m_seconds_per_row * cb.m_rows) := by
        rw [hbq, hTp]
        omega
      exact ⟨cb, none, none, hset, hget, fun hyes => absurd hyes hcond,
        fun _ => ⟨rfl, rfl⟩⟩

/-- Witness for C1 at a concrete input: a fresh 3x1 buffer with 60-second
rows, set and get at 60e9 nanoseconds. -/
theorem C1_set_then_get_window_witness :
    ∃ cb : CircularBuffer, cb.WF ∧ 1 ≤ 1 ∧ 1 ≤ cb.m_columns ∧
      (∃ cb2 ret1 ret2,
        circular_buffer_set cb 60000000000 1 7 = some (cb2, ret1) ∧
        circular_buffer_get cb2 60000000000 1 = some ret2 ∧
        ((((bucket 60000000000 cb.m_seconds_per_row : Int)
              - (cb2.m_current_time : Int)).natAbs
            < cb.m_seconds_per_row * cb.m_rows) →
          ret1 = some 7 ∧ ret2 = some 7) ∧
        (¬ ((((bucket 60000000000 cb.m_seconds_per_row : Int)
              - (cb2.m_current_time : Int)).natAbs
            < cb.m_seconds_per_row * cb.m_rows)) →
          ret1 = none ∧ ret2 = none)) := by
  refine ⟨({ m_current_time := 120, m_seconds_per_row := 60, m_current_row := 2, m_rows := 3, m_columns := 1, m_headers := [], m_values := [0, 0, 0], m_delta := false, m_format := OUTPUT_FORMAT.cbuf } : CircularBuffer), ?_, le_refl 1, ?_, ?_⟩
  · exact ⟨by decide, by decide, by decide, by decide, by decide, by decide⟩
  · decide
  · exact C1_set_then_get_window _
      ⟨by decide, by decide, by decide, by decide, by decide, by decide⟩ 60000000000 1 7
      (le_refl 1) (by decide) (by decide) (by decide)

/-- C3.  For every allocator request (ptr, osize, nsize) with nsize > 0
handled by the sandbox memory manager — with the accounting in range: osize
at most current + nsize (osize is a live allocation's size) and the new
total below 2^32: the request is granted only when
current + nsize - osize <= memory.limit (otherwise NULL is returned and
current is unchanged), so after every successful allocation
memory.current <= memory.limit holds, and maximum is raised to current
whenever current exceeds it. -/
theorem C3_memory_manager_transactional (u : usage_stats) (osize nsize : Nat)
    (alloc_ok : Bool) (hns : 0 < nsize) (hos : osize ≤ u.m_current + nsize)
    (hfit : u.m_current + nsize - osize < 2 ^ 32) :
    ((memory_manager u osize nsize alloc_ok).2 = true →
      (memory_manager u osize nsize alloc_ok).1.m_current
          = u.m_current + nsize - osize ∧
        (memory_manager u osize nsize alloc_ok).1.m_current ≤ u.m_limit ∧
        (memory_manager u osize nsize alloc_ok).1.m_maximum
          = max u.m_maximum (memory_manager u osize nsize alloc_ok).1.m_current) ∧
    (u.m_limit < u.m_current + nsize - osize →
      (memory_manager u osize nsize alloc_ok).2 = false ∧
        (memory_manager u osize nsize alloc_ok).1 = u) ∧
    ((memory_manager u osize nsize alloc_ok).2 = false →
      (memory_manager u osize nsize alloc_ok).1.m_current = u.m_current) := by
  have hmod : ((((u.m_current : Int) + (nsize : Int) - (osize : Int)) % (2 ^ 32)).toNat)
      = u.m_current + nsize - osize := by
    rw [Int.emod_eq_of_lt (by omega) (by omega)]
    omega
  simp only [memory_manager, if_neg (show ¬ nsize = 0 by omega), hmod]
  rcases le_or_lt (u.m_current + nsize - osize) u.m_limit with hle | hgt
  · rw [if_pos hle]
    cases alloc_ok with
    | true =>
      refine ⟨fun _ => ⟨rfl, hle, ?_⟩, fun hcon => absurd hle (by omega),
        fun hfalse => ?_⟩
      · show (if u.m_current + nsize - osize > u.m_maximum
            then u.m_current + nsize - osize else u.m_maximum)
          = max u.m_maximum (u.m_current + nsize - osize)
        split <;> omega
      · exact absurd hfalse (by simp)
    | false =>
      exact ⟨fun htrue => absurd htrue (by simp),
        fun hcon => absurd hle (by omega), fun _ => rfl⟩
  · rw [if_neg (by omega)]
    exact ⟨fun htrue => absurd htrue (by simp), fun _ => ⟨rfl, rfl⟩, fun _ => rfl⟩

/-- Witness for C3: a grant at current 100, limit 200, osize 30, nsize 50. -/
theorem C3_memory_manager_transactional_witness :
    0 < 50 ∧ (30 ≤ 100 + 50 ∧ 100 + 50 - 30 < 2 ^ 32) ∧
    (((memory_manager ({ m_limit := 200, m_current := 100, m_maximum := 110 }) 30 50 true).2 = true →
      (memory_manager ({ m_limit := 200, m_current := 100, m_maximum := 110 }) 30 50 true).1.m_current = 100 + 50 - 30 ∧
        (memory_manager ({ m_limit := 200, m_current := 100, m_maximum := 110 }) 30 50 true).1.m_current ≤ 200 ∧
        (memory_manager ({ m_limit := 200, m_current := 100, m_maximum := 110 }) 30 50 true).1.m_maximum
          = max 110 (memory_manager ({ m_limit := 200, m_current := 100, m_maximum := 110 }) 30 50 true).1.m_current) ∧
    (200 < 100 + 50 - 30 →
      (memory_manager ({ m_limit := 200, m_current := 100, m_maximum := 110 }) 30 50 true).2 = false ∧
        (memory_manager ({ m_limit := 200, m_current := 100, m_maximum := 110 }) 30 50 true).1
          = ({ m_limit := 200, m_current := 100, m_maximum := 110 })) ∧
    ((memory_manager ({ m_limit := 200, m_current := 100, m_maximum := 110 }) 30 50 true).2 = false →
      (memory_manager ({ m_limit := 200, m_current := 100, m_maximum := 110 }) 30 50 true).1.m_current = 100)) :=
  ⟨by decide, ⟨by decide, by decide⟩,
    C3_memory_manager_transactional ({ m_limit := 200, m_current := 100, m_maximum := 110 }) 30 50 true
      (by decide) (by decide) (by decide)⟩

/-- C7.  For every call to create with a memory limit greater than
MAX_MEMORY (8 MiB), or an instruction limit greater than MAX_INSTRUCTIONS
(1,000,000), or an output limit greater than MAX_OUTPUT (63 KiB), create
returns null and no sandbox is constructed.  (Settled against the
spec-modelled five-argument create; src holds only its declaration and an
older four-argument implementation.) -/
theorem C7_create_rejects_excessive_limits (mem_limit inst_limit output_limit : Nat)
    (h : mem_limit > MAX_MEMORY ∨ inst_limit > MAX_INSTRUCTION
      ∨ output_limit > MAX_OUTPUT) :
    lua_sandbox_create mem_limit inst_limit output_limit = none := by
  simp only [lua_sandbox_create]
  rw [if_pos h]

/-- Witness for C7: a memory limit one byte over the ceiling. -/
theorem C7_create_rejects_excessive_limits_witness :
    (1024 * 1024 * 8 + 1 > MAX_MEMORY ∨ 1000 > MAX_INSTRUCTION
      ∨ 1024 > MAX_OUTPUT) ∧
    lua_sandbox_create (1024 * 1024 * 8 + 1) 1000 1024 = none :=
  ⟨Or.inl (by decide),
    C7_create_rejects_excessive_limits (1024 * 1024 * 8 + 1) 1000 1024
      (Or.inl (by decide))⟩

set_option maxRecDepth 4096 in
/-- C8.  For every protobuf message emitted by the table encoder, whatever
bytes the PRNG produced, the 16-byte Uuid written as field 1 has its
version nibble forced to 4 (Uuid[6] >> 4 == 4) and its variant bits to
RFC-4122 "10" (Uuid[8] >> 6 == 2). -/
theorem C8_pb_uuid_version_and_variant (rands : List Nat)
    (hlen : rands.length = 16) :
    (pb_uuid rands).getD 6 0 >>> 4 = 4 ∧ (pb_uuid rands).getD 8 0 >>> 6 = 2 := by
  obtain ⟨r0, r1, r2, r3, r4, r5, r6, r7, r8, r9, r10, r11, r12, r13, r14,
    r15, rest, hr⟩ :
      ∃ a0 a1 a2 a3 a4 a5 a6 a7 a8 a9 a10 a11 a12 a13 a14 a15 rest,
        rands = a0 :: a1 :: a2 :: a3 :: a4 :: a5 :: a6 :: a7 :: a8 :: a9
          :: a10 :: a11 :: a12 :: a13 :: a14 :: a15 :: rest := by
    match rands, hlen with
    | a0 :: a1 :: a2 :: a3 :: a4 :: a5 :: a6 :: a7 :: a8 :: a9 :: a10 :: a11
        :: a12 :: a13 :: a14 :: a15 :: [], _ =>
      exact ⟨a0, a1, a2, a3, a4, a5, a6, a7, a8, a9, a10, a11, a12, a13, a14,
        a15, [], rfl⟩
  subst hr
  constructor
  · have key : ∀ b < 255, ((b &&& 0x0F) ||| 0x40) >>> 4 = 4 := by decide
    simpa [pb_uuid, serialize_table_as_pb_uuid, List.take, List.set, List.getD]
      using key (r6 % 255) (Nat.mod_lt _ (by omega))
  · have key : ∀ b < 255, ((b &&& 0x0F) ||| 0xA0) >>> 6 = 2 := by decide
    simpa [pb_uuid, serialize_table_as_pb_uuid, List.take, List.set, List.getD]
      using key (r8 % 255) (Nat.mod_lt _ (by omega))

/-- Witness for C8 at a concrete PRNG byte sequence. -/
theorem C8_pb_uuid_version_and_variant_witness :
    ([9, 8, 7, 6, 5, 4, 3, 2, 1, 0, 11, 12, 13, 14, 15, 16] : List Nat).length = 16 ∧
    ((pb_uuid [9, 8, 7, 6, 5, 4, 3, 2, 1, 0, 11, 12, 13, 14, 15, 16]).getD 6 0 >>> 4 = 4
      ∧ (pb_uuid [9, 8, 7, 6, 5, 4, 3, 2, 1, 0, 11, 12, 13, 14, 15, 16]).getD 8 0 >>> 6 = 2) :=
  ⟨by decide, C8_pb_uuid_version_and_variant _ (by decide)⟩

/-- C10.  The claim says pb_write_varint terminates within the ten bytes it
reserves for every long long input, negative Timestamps included.  The code
is wrong there: for a negative input the arithmetic right shift keeps the
sign bit, the loop variable converges to -1 and never reaches 0, so the
loop never exits (and keeps writing past the reserved bytes).  This theorem
evaluates the model at the failing input -1: no iteration bound whatever
lets the loop finish. -/
theorem C10_pb_write_varint_negative_never_terminates :
    ∀ fuel : Nat, pb_write_varint fuel (-1) = none := by
  have hloop : ∀ (fuel : Nat) (acc : List Nat),
      pb_write_varint_loop fuel (-1) acc = none := by
    intro fuel
    induction fuel with
    | zero => intro acc; simp [pb_write_varint_loop]
    | succ f ih =>
      intro acc
      have hdiv : Int.fdiv (-1) 128 = -1 := by decide
      simp only [pb_write_varint_loop, hdiv, if_neg (by omega : ¬ (-1 : Int) = 0)]
      exact ih _
  intro fuel
  simp only [pb_write_varint, if_neg (by omega : ¬ (-1 : Int) = 0), hloop]

theorem ends_with_aborted_iff (l : List Char) (_hlen : 7 ≤ l.length) :
    (l.drop (l.length - 7) = ("aborted").toList) ↔ ("aborted").toList <:+ l := by
  constructor
  · intro h
    rw [← h]
    exact List.drop_suffix _ _
  · intro h
    have h2 := List.suffix_iff_eq_drop.mp h
    rw [show ("aborted").toList.length = 7 from rfl] at h2
    exact h2.symm

/-- A suffix "aborted" of the prefixed message "process_message() " ++ msg
can only come from msg itself: no nonempty suffix of the prefix is a prefix
of "aborted". -/
theorem aborted_suffix_of_prefixed (msg : List Char)
    (h : ("aborted").toList <:+ ("process_message() ").toList ++ msg) :
    ("aborted").toList <:+ msg := by
  obtain ⟨t, ht⟩ := h
  have hlen : t.length + 7 = 18 + msg.length := by
    have h2 := congrArg List.length ht
    simp at h2
    omega
  have h2 : ("aborted").toList
      = (("process_message() ").toList ++ msg).drop t.length := by
    conv_lhs => rw [← List.drop_left t (("aborted").toList)]
    rw [ht]
  rw [List.drop_append_eq_append_drop] at h2
  rw [show t.length = 11 + msg.length from by omega] at h2
  rcases le_or_lt 7 msg.length with hge | hlt
  · rw [List.drop_eq_nil_of_le
      (by rw [show ("process_message() ").toList.length = 18 from rfl]; omega),
      List.nil_append] at h2
    rw [h2]
    exact List.drop_suffix _ _
  · have hk : msg.length = 0 ∨ msg.length = 1 ∨ msg.length = 2
        ∨ msg.length = 3 ∨ msg.length = 4 ∨ msg.length = 5
        ∨ msg.length = 6 := by omega
    rcases hk with hk | hk | hk | hk | hk | hk | hk <;> rw [hk] at h2
    · have h4 := congrArg (fun l => List.take 7 l) h2
      simp only [] at h4
      rw [List.take_left' (by decide)] at h4
      exact absurd h4 (by decide)
    · have h4 := congrArg (fun l => List.take 6 l) h2
      simp only [] at h4
      rw [List.take_left' (by decide)] at h4
      exact absurd h4 (by decide)
    · have h4 := congrArg (fun l => List.take 5 l) h2
      simp only [] at h4
      rw [List.take_left' (by decide)] at h4
      exact absurd h4 (by decide)
    · have h4 := congrArg (fun l => List.take 4 l) h2
      simp only [] at h4
      rw [List.take_left' (by decide)] at h4
      exact absurd h4 (by decide)
    · have h4 := congrArg (fun l => List.take 3 l) h2
      simp only [] at h4
      rw [List.take_left' (by decide)] at h4
      exact absurd h4 (by decide)
    · have h4 := congrArg (fun l => List.take 2 l) h2
      simp only [] at h4
      rw [List.take_left' (by decide)] at h4
      exact absurd h4 (by decide)
    · have h4 := congrArg (fun l => List.take 1 l) h2
      simp only [] at h4
      rw [List.take_left' (by decide)] at h4
      exact absurd h4 (by decide)

/-- C5.  For every uncaught script error raised during process_message or
timer_event (with the formatted message inside the C error buffer): when
the message ends with the seven-character literal "aborted" the sandbox is
not terminated — its status stays Running — and the call still returns
non-zero; for every other uncaught error the sandbox transitions to
Terminated and last_error is populated with the prefixed message. -/
theorem C5_uncaught_error_aborted_tolerance (lsb : lua_sandbox)
    (msg : List Char) (hrun : lsb.m_status = sandbox_status.RUNNING)
    (_hfit : (("process_message() ").toList ++ msg).length < 255) :
    ((("aborted").toList <:+ msg →
      (process_message lsb (script_result.err_raised msg)).1.m_status
          = sandbox_status.RUNNING ∧
        (process_message lsb (script_result.err_raised msg)).2 ≠ 0 ∧
        (timer_event lsb (script_result.err_raised msg)).1.m_status
          = sandbox_status.RUNNING ∧
        (timer_event lsb (script_result.err_raised msg)).2 ≠ 0) ∧
      (¬ (("aborted").toList <:+ msg) →
        (process_message lsb (script_result.err_raised msg)).1.m_status
            = sandbox_status.TERMINATED ∧
          (process_message lsb (script_result.err_raised msg)).1.m_error_message
            = ("process_message() ").toList ++ msg ∧
          (process_message lsb (script_result.err_raised msg)).2 ≠ 0 ∧
          (timer_event lsb (script_result.err_raised msg)).1.m_status
            = sandbox_status.TERMINATED ∧
          (timer_event lsb (script_result.err_raised msg)).1.m_error_message
            = ("timer_event() ").toList ++ msg)) := by
  have hlen18 : (("process_message() ").toList ++ msg).length
      = 18 + msg.length := by
    rw [List.length_append, show ("process_message() ").toList.length = 18 from rfl]
  constructor
  · intro hab
    have h7 : 7 ≤ msg.length := by
      have := hab.length_le
      simpa using this
    have hps : ("aborted").toList <:+ ("process_message() ").toList ++ msg :=
      hab.trans (List.suffix_append _ _)
    constructor
    · simp only [process_message]
      rw [if_pos ((ends_with_aborted_iff _ (by omega)).mpr hps)]
      exact hrun
    constructor
    · simp only [process_message]
      rw [if_pos ((ends_with_aborted_iff _ (by omega)).mpr hps)]
      omega
    constructor
    · simp only [timer_event]
      rw [if_neg (by omega), if_pos ((ends_with_aborted_iff _ h7).mpr hab)]
      exact hrun
    · simp only [timer_event]
      rw [if_neg (by omega), if_pos ((ends_with_aborted_iff _ h7).mpr hab)]
      omega
  · intro hnab
    have hnps : ¬ ((("process_message() ").toList ++ msg).drop
        ((("process_message() ").toList ++ msg).length - 7)
          = ("aborted").toList) := by
      intro hcon
      exact hnab (aborted_suffix_of_prefixed msg
        ((ends_with_aborted_iff _ (by omega)).mp hcon))
    refine ⟨?_, ?_, ?_, ?_, ?_⟩
    · simp only [process_message]
      rw [if_neg hnps]
      rfl
    · simp only [process_message]
      rw [if_neg hnps]
      rfl
    · simp only [process_message]
      rw [if_neg hnps]
      omega
    · simp only [timer_event]
      rcases le_or_lt 7 msg.length with h7 | h7
      · rw [if_neg (by omega),
          if_neg (fun hcon => hnab ((ends_with_aborted_iff _ h7).mp hcon))]
        rfl
      · rw [if_pos h7]
        rfl
    · simp only [timer_event]
      rcases le_or_lt 7 msg.length with h7 | h7
      · rw [if_neg (by omega),
          if_neg (fun hcon => hnab ((ends_with_aborted_iff _ h7).mp hcon))]
        rfl
      · rw [if_pos h7]
        rfl

/-- Witness for C5 at a concrete running sandbox: the cooperative-abort
message "custom reason aborted" keeps the sandbox running while the call
returns non-zero. -/
theorem C5_uncaught_error_aborted_tolerance_witness :
    ("aborted").toList <:+ ("custom reason aborted").toList ∧
    (("process_message() ").toList ++ ("custom reason aborted").toList).length < 255 ∧
    ((process_message ({ m_status := sandbox_status.RUNNING, m_error_message := [], m_output := [], m_usage_output := { m_limit := 1024, m_current := 0, m_maximum := 0 } }) (script_result.err_raised (("custom reason aborted").toList))).1.m_status
        = sandbox_status.RUNNING ∧
      (process_message ({ m_status := sandbox_status.RUNNING, m_error_message := [], m_output := [], m_usage_output := { m_limit := 1024, m_current := 0, m_maximum := 0 } }) (script_result.err_raised (("custom reason aborted").toList))).2 ≠ 0 ∧
      (timer_event ({ m_status := sandbox_status.RUNNING, m_error_message := [], m_output := [], m_usage_output := { m_limit := 1024, m_current := 0, m_maximum := 0 } }) (script_result.err_raised (("custom reason aborted").toList))).1.m_status
        = sandbox_status.RUNNING ∧
      (timer_event ({ m_status := sandbox_status.RUNNING, m_error_message := [], m_output := [], m_usage_output := { m_limit := 1024, m_current := 0, m_maximum := 0 } }) (script_result.err_raised (("custom reason aborted").toList))).2 ≠ 0) :=
  ⟨⟨("custom reason ").toList, rfl⟩, by decide,
    (C5_uncaught_error_aborted_tolerance _ (("custom reason aborted").toList)
      rfl (by decide)).1 ⟨("custom reason ").toList, rfl⟩⟩

set_option maxHeartbeats 2000000 in
/-- C6.  The claim says compute('max', col) returns the greatest cell value
with the running result initialized to -infinity, also on all-negative
data.  compute_max (lua_circular_buffer.c line 461) instead initializes to
DBL_MIN — the smallest positive normalized double, about 2.2e-308 — so on a
buffer whose scanned cells are all -5 it returns DBL_MIN, not -5.  This
theorem evaluates the code at that failing input; the min half behaves as
claimed on the same buffer (its DBL_MAX initializer is above every finite
cell). -/
theorem C6_compute_max_initializer_bug :
    (do
      let cb ← circular_buffer_new 2 1 1 false
      let r1 ← circular_buffer_set cb 0 1 (-5)
      let r2 ← circular_buffer_set r1.1 1000000000 1 (-5)
      circular_buffer_compute r2.1 COMPUTE_FN.max 1 none none)
      = some (some DBL_MIN)
    ∧ (do
      let cb ← circular_buffer_new 2 1 1 false
      let r1 ← circular_buffer_set cb 0 1 (-5)
      let r2 ← circular_buffer_set r1.1 1000000000 1 (-5)
      circular_buffer_compute r2.1 COMPUTE_FN.min 1 none none)
      = some (some (-5))
    ∧ DBL_MIN ≠ (-5 : ℚ) ∧ (0 : ℚ) < DBL_MIN := by
  have hmax : ¬ ((-5 : ℚ) > DBL_MIN) := by
    rw [DBL_MIN]
    norm_num
  have hmin : ((-5 : ℚ) < DBL_MAX) := by
    rw [DBL_MAX]
    norm_num
  refine ⟨?_, ?_, by rw [DBL_MIN]; norm_num, by rw [DBL_MIN]; norm_num⟩
  · norm_num [circular_buffer_new, circular_buffer_set, circular_buffer_compute,
      check_row, check_column, bucket, get_start_time, ring_rows, cellAt,
      compute_max, Option.bind, List.foldl, if_neg hmax]
  · norm_num [circular_buffer_new, circular_buffer_set, circular_buffer_compute,
      check_row, check_column, bucket, get_start_time, ring_rows, cellAt,
      compute_min, Option.bind, List.foldl, if_pos hmin]

/-- When every argument's append succeeds, the output() argument loop never
sets its failure flag (lua_sandbox_private.c lines 819..883). -/
theorem output_loop_ok : ∀ (args : List output_arg) (buf : List Char),
    (∀ a ∈ args, (output_append a).isSome = true) →
    (output_loop buf args).2 = false
  | [], _, _ => rfl
  | a :: rest, buf, h => by
    have ha := h a (List.mem_cons_self a rest)
    cases hap : output_append a with
    | none => rw [hap] at ha; exact absurd ha (by simp)
    | some s =>
      simp only [output_loop, hap]
      exact output_loop_ok rest (buf ++ s) (fun x hx => h x (List.mem_cons_of_mem a hx))

set_option maxHeartbeats 800000 in
/-- C4 (amended).  Within output(), once the per-argument appends all
succeed, update_output_stats commits the buffer position to output.current
(so current always equals the position when output() hands control back);
a normal return implies position ≤ limit; and a position past the limit
makes the call raise the script error "output_limit exceeded" (when no other
error message is pending) rather than return normally.  The original
claim's first clause — position ≤ limit whenever a host call returns — is
false: the over-limit bytes stay in the buffer, the raise propagates out of
the script, and process_message returns 1 to the host with position >
limit (see the counterexample). -/
theorem C4_output_accounting (lsb : lua_sandbox) (args : List output_arg)
    (hargs : args ≠ [])
    (happ : ∀ a ∈ args, (output_append a).isSome = true)
    (herr : lsb.m_error_message = []) :
    (output_call lsb args).1.m_usage_output.m_current
        = (output_call lsb args).1.m_output.length
    ∧ ((output_call lsb args).2 = call_result.normal →
        (output_call lsb args).1.m_output.length
          ≤ (output_call lsb args).1.m_usage_output.m_limit)
    ∧ ((output_call lsb args).1.m_usage_output.m_limit
          < (output_call lsb args).1.m_output.length →
        (output_call lsb args).2
          = call_result.raised (("output_limit exceeded").toList)) := by
  have hloop := output_loop_ok args lsb.m_output happ
  simp only [output_call, if_neg hargs, update_output_stats, hloop]
  rcases le_or_lt (output_loop lsb.m_output args).1.length
      lsb.m_usage_output.m_limit with hle | hgt
  · rw [if_neg (by simp; omega)]
    exact ⟨rfl, fun _ => hle, fun hcon => absurd hcon (by simp; omega)⟩
  · rw [if_pos (Or.inr (by simp; omega)), herr]
    rw [if_pos rfl]
    refine ⟨rfl, fun hcon => ?_, fun _ => rfl⟩
    cases hcon

/-- Witness for C4: a two-argument call inside the limit. -/
theorem C4_output_accounting_witness :
    (output_call
        { m_status := sandbox_status.RUNNING, m_error_message := [],
          m_output := [],
          m_usage_output := { m_limit := 100, m_current := 0, m_maximum := 0 } }
        [output_arg.str (("ok").toList), output_arg.boolean true]).1.m_usage_output.m_current
      = (output_call
        { m_status := sandbox_status.RUNNING, m_error_message := [],
          m_output := [],
          m_usage_output := { m_limit := 100, m_current := 0, m_maximum := 0 } }
        [output_arg.str (("ok").toList), output_arg.boolean true]).1.m_output.length :=
  (C4_output_accounting _ _ (by decide) (by decide) rfl).1

/-- Counterexample for C4's first clause: with an output limit of 4 bytes, a
single output("toolong") drives the position to 7, output() raises
"output_limit exceeded", the uncaught error reaches process_message, and
control returns to the host (return value 1) with the terminated sandbox
still holding position 7 > limit 4 — output.position ≤ output.limit does
not hold whenever control returns to the host. -/
theorem C4_host_return_over_limit_counterexample :
    (output_call
        { m_status := sandbox_status.RUNNING, m_error_message := [],
          m_output := [],
          m_usage_output := { m_limit := 4, m_current := 0, m_maximum := 0 } }
        [output_arg.str (("toolong").toList)]).2
      = call_result.raised (("output_limit exceeded").toList)
    ∧ (process_message
        (output_call
          { m_status := sandbox_status.RUNNING, m_error_message := [],
            m_output := [],
            m_usage_output := { m_limit := 4, m_current := 0, m_maximum := 0 } }
          [output_arg.str (("toolong").toList)]).1
        (script_result.err_raised (("output_limit exceeded").toList))).2 = 1
    ∧ (process_message
        (output_call
          { m_status := sandbox_status.RUNNING, m_error_message := [],
            m_output := [],
            m_usage_output := { m_limit := 4, m_current := 0, m_maximum := 0 } }
          [output_arg.str (("toolong").toList)]).1
        (script_result.err_raised (("output_limit exceeded").toList))).1.m_usage_output.m_limit
      < (process_message
        (output_call
          { m_status := sandbox_status.RUNNING, m_error_message := [],
            m_output := [],
            m_usage_output := { m_limit := 4, m_current := 0, m_maximum := 0 } }
          [output_arg.str (("toolong").toList)]).1
        (script_result.err_raised (("output_limit exceeded").toList))).1.m_output.length := by
  refine ⟨by decide, by decide, by decide⟩

/-- serialize_double on the integer 10, from the exact-value evaluation. -/
theorem serialize_double_ten : serialize_double (10 : ℚ) = some (('1') :: ('0') :: []) := by
  have h := serialize_double_exact 10 0 (by norm_num) (by norm_num)
  rw [show ((10 : ℕ) : ℚ) + ((0 : ℕ) : ℚ) / 10 ^ 8 = (10 : ℚ) from by norm_num] at h
  rw [h]
  decide

/-- C9 (amended).  The JSON serializer's key filter is ignore_key alone: an
entry is emitted as the empty byte string exactly when its key is a string
whose first byte is an underscore (or its value is of a skipped type); a
numeric key is never filtered (ignore_key is false on every number) and the
entry is emitted as key, colon, value.  The preservation serializer applies
no key filter at all and emits a nonempty line for every scalar-valued
entry.  The original claim's statement that numeric keys are omitted by the
JSON variant is false — see the counterexample. -/
theorem C9_key_filtering (fuel : Nat) (k v : LuaValue) (kp ks vs kd vd : List Char)
    (hks : serialize_data_as_json k = some ks)
    (hvs : serialize_data_as_json v = some vs)
    (hnotnil : ignore_value_type_json v = false)
    (hnt : ∀ es, v ≠ LuaValue.table es)
    (hkd : serialize_data k = some kd)
    (hvd : serialize_data v = some vd) :
    (ignore_key k = true → serialize_kvp_as_json (fuel + 1) k v true = some [])
    ∧ (ignore_key k = false →
        serialize_kvp_as_json (fuel + 1) k v true = some (ks ++ ':' :: vs))
    ∧ (∀ q, k = LuaValue.num q → ignore_key k = false)
    ∧ serialize_kvp kp k v = some (kp ++ '[' :: kd ++ [']'] ++ (" = ").toList
        ++ vd ++ [Char.ofNat 10]) := by
  have hivt : ignore_value_type v = false := by
    cases v with
    | nil => simp [ignore_value_type_json] at hnotnil
    | boolean b => rfl
    | num q => rfl
    | str s => rfl
    | table es => rfl
  refine ⟨?_, ?_, ?_, ?_⟩
  · intro hik
    simp [serialize_kvp_as_json, hnotnil, hik]
  · intro hik
    cases v with
    | nil => simp [ignore_value_type_json] at hnotnil
    | table es => exact absurd rfl (hnt es)
    | boolean b => simp [serialize_kvp_as_json, hnotnil, hik, hks, hvs]
    | num q => simp [serialize_kvp_as_json, hnotnil, hik, hks, hvs]
    | str s => simp [serialize_kvp_as_json, hnotnil, hik, hks, hvs]
  · intro q hkq
    rw [hkq]
    rfl
  · cases v with
    | nil => simp [ignore_value_type_json] at hnotnil
    | table es => exact absurd rfl (hnt es)
    | boolean b => simp [serialize_kvp, hivt, hkd, hvd]
    | num q => simp [serialize_kvp, hivt, hkd, hvd]
    | str s => simp [serialize_kvp, hivt, hkd, hvd]

/-- Witness for C9: the entry "a" = true is emitted by the JSON serializer
as a quoted key, a colon and the literal. -/
theorem C9_key_filtering_witness :
    serialize_kvp_as_json 1 (LuaValue.str (('a') :: [])) (LuaValue.boolean true) true
      = some ((('"') :: ('a') :: ('"') :: []) ++ (':') :: (("true").toList)) :=
  (C9_key_filtering 0 (LuaValue.str (('a') :: [])) (LuaValue.boolean true) []
      (('"') :: ('a') :: ('"') :: []) (("true").toList)
      (('"') :: ('a') :: ('"') :: []) (("true").toList)
      (by decide) (by decide) (by decide) (fun es h => nomatch h)
      (by decide) (by decide)).2.1 (by decide)

/-- Counterexample for C9: in a hash table the entry with the numeric key
10 and string value "x" is serialized by the JSON variant as 10:"x" — a
numeric key is not omitted (ignore_key skips only underscore-prefixed
string keys, lua_sandbox_private.c lines 591..600, and
serialize_kvp_as_json serializes the key of every unfiltered hash entry). -/
theorem C9_numeric_key_not_omitted_counterexample :
    serialize_kvp_as_json 1 (LuaValue.num 10) (LuaValue.str (('x') :: [])) true
      = some (('1') :: ('0') :: (':') :: ('"') :: ('x') :: ('"') :: [])
    ∧ serialize_kvp_as_json 1 (LuaValue.num 10) (LuaValue.str (('x') :: [])) true
      ≠ some [] := by
  have hx : serialize_data_as_json (LuaValue.str (('x') :: []))
      = some (('"') :: ('x') :: ('"') :: []) := by decide
  have hesc : jsonEscapeChar 'x' = ('x') :: [] := by decide
  constructor
  · simp [serialize_kvp_as_json, ignore_value_type_json, ignore_key,
      serialize_data_as_json, serialize_double_ten, hx, hesc]
  · simp [serialize_kvp_as_json, ignore_value_type_json, ignore_key,
      serialize_data_as_json, serialize_double_ten, hx, hesc]

/-- Taking one past a set index splits off the written element. -/
theorem take_succ_set {α : Type} : ∀ (l : List α) (k : Nat) (x : α), k < l.length →
    (l.set k x).take (k + 1) = l.take k ++ [x]
  | [], k, x, h => by simp at h
  | a :: t, 0, x, _ => by simp
  | a :: t, k + 1, x, h => by
    rw [List.set_cons_succ, List.take_succ_cons, List.take_succ_cons,
      take_succ_set t k x (by simpa using h)]
    rfl

/-- Taking one more element splits off the element at the boundary. -/
theorem take_succ_getD {α : Type} : ∀ (l : List α) (k : Nat) (d : α), k < l.length →
    l.take (k + 1) = l.take k ++ [l.getD k d]
  | [], k, d, h => by simp at h
  | a :: t, 0, d, _ => by simp [List.getD]
  | a :: t, k + 1, d, h => by
    rw [List.take_succ_cons, List.take_succ_cons, take_succ_getD t k d (by simpa using h)]
    rfl

/-- An Option mapM over a list on which the function always succeeds with a
pointwise property: the result pairs with the input elementwise. -/
theorem mapM_option_forall {α β : Type} (f : α → Option β) (P : α → β → Prop) :
    ∀ (l : List α), (∀ v ∈ l, ∃ c, f v = some c ∧ P v c) →
    ∃ out, l.mapM f = some out ∧ List.Forall₂ (fun v c => f v = some c ∧ P v c) l out
  | [], _ => ⟨[], rfl, List.Forall₂.nil⟩
  | a :: rest, h => by
    obtain ⟨c, hc, hp⟩ := h a (List.mem_cons_self a rest)
    obtain ⟨out, hout, hfa⟩ := mapM_option_forall f P rest
      (fun v hv => h v (List.mem_cons_of_mem a hv))
    exact ⟨c :: out, by rw [List.mapM_cons, hc, hout]; rfl,
      List.Forall₂.cons ⟨hc, hp⟩ hfa⟩

/-- The sequential fill of write_from covers the whole list when started at
position 0 with exactly as many values. -/
theorem write_from_full : ∀ (qs vals : List ℚ) (pos : Nat),
    vals.length = pos + qs.length →
    write_from vals pos qs = vals.take pos ++ qs
  | [], vals, pos, h => by
    simp only [write_from]
    rw [List.take_of_length_le (by simp at h; omega), List.append_nil]
  | q :: qs, vals, pos, h => by
    have hlt : pos < vals.length := by simp at h; omega
    simp only [write_from]
    rw [write_from_full qs (vals.set pos q) (pos + 1)
        (by rw [List.length_set]; simp at h ⊢; omega),
      take_succ_set vals pos q hlt]
    simp

/-- The cell-filling loop of fromstring writes the parsed value of every
token at consecutive positions when the token count matches. -/
theorem fromstring_cells_fill (toks : List (List Char)) (qs : List ℚ)
    (hfa : List.Forall₂ (fun tk q => parseDec tk = some q) toks qs) :
    ∀ (vals : List ℚ) (pos len cols : Nat), pos + toks.length = len →
    fromstring_cells len cols false vals pos toks = some (write_from vals pos qs) := by
  induction hfa with
  | nil =>
    intro vals pos len cols hlen
    simp only [fromstring_cells, write_from]
    rw [if_pos (by simpa using hlen)]
  | @cons tk q toks2 qs2 hpq hfa2 ih =>
    intro vals pos len cols hlen
    simp only [fromstring_cells, hpq, write_from]
    rw [if_neg (by simp at hlen; omega)]
    exact ih (vals.set pos q) (pos + 1) len cols (by simp at hlen ⊢; omega)

/-- One set_header call inside its column bound: write the sanitized header
at the zero-based slot. -/
theorem set_header_step (cb : CircularBuffer) (i : Nat) (nm ut : List Char)
    (ag : COLUMN_AGGREGATION) (hi : i < cb.m_columns) :
    circular_buffer_set_header cb (i + 1) nm ut ag
      = some ({ cb with m_headers := cb.m_headers.set i (header_info.mk (sanitize_name (nm.take 15)) (sanitize_unit (ut.take 7)) ag) }, i + 1) := by
  simp only [circular_buffer_set_header, check_column]
  rw [if_pos (show 1 ≤ i + 1 ∧ i + 1 ≤ cb.m_columns from ⟨by omega, by omega⟩)]
  rw [Nat.add_sub_cancel]

/-- Reindexing the serializer's header lines from zero-based loop counters to
their one-based columns. -/
theorem header_lines_shift (H : List header_info) (d : header_info) :
    ∀ (n s : Nat), (List.range' s n).map (fun i =>
        (i + 1, (H.getD i d).m_name, (H.getD i d).m_unit, (H.getD i d).m_aggregation))
      = (List.range' (s + 1) n).map (fun j =>
        (j, (H.getD (j - 1) d).m_name, (H.getD (j - 1) d).m_unit,
          (H.getD (j - 1) d).m_aggregation))
  | 0, _ => rfl
  | n + 1, s => by
    rw [List.range'_succ, List.range'_succ, List.map_cons, List.map_cons,
      header_lines_shift H d n (s + 1)]
    rw [show s + 1 - 1 = s from by omega]

/-- Replaying the emitted set_header lines restores the original header
array: each line rewrites one slot with its original (already sanitized,
in-bounds) contents. -/
theorem set_header_fold (H : List header_info) (dflt : header_info)
    (hsan : ∀ h ∈ H, h.m_name.length ≤ 15 ∧ sanitize_name h.m_name = h.m_name
      ∧ h.m_unit.length ≤ 7 ∧ sanitize_unit h.m_unit = h.m_unit) :
    ∀ (n k : Nat) (cb0 : CircularBuffer),
      cb0.m_columns = H.length →
      cb0.m_headers.length = H.length →
      k + n = H.length →
      cb0.m_headers.take k = H.take k →
      ((List.range' (k + 1) n).map (fun j =>
          (j, (H.getD (j - 1) dflt).m_name, (H.getD (j - 1) dflt).m_unit,
            (H.getD (j - 1) dflt).m_aggregation))).foldlM
        (fun cb line => do
          let r ← circular_buffer_set_header cb line.1 line.2.1 line.2.2.1 line.2.2.2
          pure r.1) cb0
      = some { cb0 with m_headers := H }
  | 0, k, cb0 => by
    intro hcols hlen hkn htake
    have hk : k = H.length := by omega
    have hH : cb0.m_headers = H := by
      have h1 : cb0.m_headers.take k = cb0.m_headers := by
        rw [hk, ← hlen, List.take_length]
      have h2 : H.take k = H := by rw [hk, List.take_length]
      rw [← h1, htake, h2]
    rw [show List.range' (k + 1) 0 = [] from rfl]
    simp only [List.map_nil, List.foldlM_nil]
    rw [← hH]
    rfl
  | n + 1, k, cb0 => by
    intro hcols hlen hkn htake
    have hkH : k < H.length := by omega
    have hmem : H.getD k dflt ∈ H := by
      rw [List.getD_eq_getElem H dflt hkH]
      exact List.getElem_mem hkH
    have hs := hsan _ hmem
    have hstep := set_header_step cb0 k (H.getD k dflt).m_name (H.getD k dflt).m_unit
      (H.getD k dflt).m_aggregation (by omega)
    rw [List.take_of_length_le hs.1, hs.2.1, List.take_of_length_le hs.2.2.1,
      hs.2.2.2] at hstep
    rw [List.range'_succ, List.map_cons, List.foldlM_cons]
    rw [show k + 1 - 1 = k from by omega]
    simp only []
    rw [hstep]
    have hrec : header_info.mk (H.getD k dflt).m_name (H.getD k dflt).m_unit
        (H.getD k dflt).m_aggregation = H.getD k dflt := rfl
    rw [hrec]
    have hlen2 : (cb0.m_headers.set k (H.getD k dflt)).length = H.length := by
      rw [List.length_set]
      exact hlen
    have htake2 : (cb0.m_headers.set k (H.getD k dflt)).take (k + 1) = H.take (k + 1) := by
      rw [take_succ_set cb0.m_headers k (H.getD k dflt) (by omega), htake,
        ← take_succ_getD H k dflt hkH]
    exact set_header_fold H dflt hsan n (k + 1) { cb0 with m_headers := cb0.m_headers.set k (H.getD k dflt) } hcols hlen2 (by omega) htake2

set_option maxHeartbeats 1000000 in
/-- C2 (amended).  For every well-formed circular buffer whose headers are
in-bounds and sanitized, whose delta side table is off, and whose every cell
value is exactly representable with at most eight decimal fraction digits
and an integer part within serialize_double's fast path (the exact_decimal8
class), serializing to the restoration text and re-executing it in a fresh
sandbox reconstructs m_current_time, m_current_row, the headers and every
cell value exactly, along with the shape parameters.  Outside that class
the cells are only restored to eight decimal fraction digits — see the
truncation counterexample — so the original claim's "every cell value ...
bit-identical" is false in general; the aliasing half of the claim concerns
the Lua heap outside this value model. -/
theorem C2_serialize_restore_roundtrip (cb : CircularBuffer) (hwf : cb.WF)
    (hh : cb.HeadersWF) (hdelta : cb.m_delta = false)
    (hcells : ∀ v ∈ cb.m_values, exact_decimal8 v) :
    ∃ s cb2, serialize_circular_buffer cb = some s ∧
      restore_circular_buffer s = some cb2 ∧
      cb2.m_current_time = cb.m_current_time ∧
      cb2.m_current_row = cb.m_current_row ∧
      cb2.m_headers = cb.m_headers ∧
      cb2.m_values = cb.m_values ∧
      cb2.m_rows = cb.m_rows ∧
      cb2.m_columns = cb.m_columns ∧
      cb2.m_seconds_per_row = cb.m_seconds_per_row := by
  obtain ⟨hR, hC, hS, hmod, hlen, hS36⟩ := hwf
  obtain ⟨hhlen, hhsan⟩ := hh
  obtain ⟨cells, hmapm, hfa⟩ := mapM_option_forall serialize_double
    (fun v c => parseDec c = some v) cb.m_values
    (fun v hv => serialize_parse_roundtrip v (hcells v hv))
  have hfa2 : List.Forall₂ (fun tk q => parseDec tk = some q) cells cb.m_values :=
    List.Forall₂.flip (hfa.imp (fun a b h => h.2))
  have hclen : cells.length = cb.m_values.length := (hfa.length_eq).symm
  have hnew : circular_buffer_new cb.m_rows cb.m_columns cb.m_seconds_per_row false = some (CircularBuffer.mk (cb.m_seconds_per_row * (cb.m_rows - 1)) cb.m_seconds_per_row (cb.m_rows - 1) cb.m_rows cb.m_columns ((List.range cb.m_columns).map (fun i => header_info.mk ((("Column_").toList ++ natMsbChars (i + 1)).take 15) (("count").toList) COLUMN_AGGREGATION.sum)) (List.replicate (cb.m_rows * cb.m_columns) 0) false OUTPUT_FORMAT.cbuf) := by
    simp only [circular_buffer_new]
    rw [if_pos (show 1 < cb.m_rows ∧ 0 < cb.m_columns ∧ 0 < cb.m_seconds_per_row ∧ cb.m_seconds_per_row ≤ 3600 from ⟨hR, hC, hS, hS36⟩)]
  have hfold := set_header_fold cb.m_headers (header_info.mk [] [] COLUMN_AGGREGATION.sum) hhsan cb.m_columns 0 (CircularBuffer.mk (cb.m_seconds_per_row * (cb.m_rows - 1)) cb.m_seconds_per_row (cb.m_rows - 1) cb.m_rows cb.m_columns ((List.range cb.m_columns).map (fun i => header_info.mk ((("Column_").toList ++ natMsbChars (i + 1)).take 15) (("count").toList) COLUMN_AGGREGATION.sum)) (List.replicate (cb.m_rows * cb.m_columns) 0) false OUTPUT_FORMAT.cbuf) hhlen.symm (by simp; exact hhlen.symm) (by omega) rfl
  have hlines : (List.range cb.m_columns).map (fun i => (i + 1, (cb.m_headers.getD i (header_info.mk [] [] COLUMN_AGGREGATION.sum)).m_name, (cb.m_headers.getD i (header_info.mk [] [] COLUMN_AGGREGATION.sum)).m_unit, (cb.m_headers.getD i (header_info.mk [] [] COLUMN_AGGREGATION.sum)).m_aggregation)) = (List.range' (0 + 1) cb.m_columns).map (fun j => (j, (cb.m_headers.getD (j - 1) (header_info.mk [] [] COLUMN_AGGREGATION.sum)).m_name, (cb.m_headers.getD (j - 1) (header_info.mk [] [] COLUMN_AGGREGATION.sum)).m_unit, (cb.m_headers.getD (j - 1) (header_info.mk [] [] COLUMN_AGGREGATION.sum)).m_aggregation)) := by
    rw [List.range_eq_range']
    exact header_lines_shift cb.m_headers (header_info.mk [] [] COLUMN_AGGREGATION.sum) cb.m_columns 0
  have hfill := fromstring_cells_fill cells cb.m_values hfa2 (List.replicate (cb.m_rows * cb.m_columns) 0) 0 (cb.m_rows * cb.m_columns) cb.m_columns (by rw [Nat.zero_add, hclen, hlen])
  have hwrite : write_from (List.replicate (cb.m_rows * cb.m_columns) 0) 0 cb.m_values = cb.m_values := by
    rw [write_from_full cb.m_values (List.replicate (cb.m_rows * cb.m_columns) 0) 0 (by rw [List.length_replicate, Nat.zero_add, hlen])]
    rfl
  have hfrom : circular_buffer_fromstring (CircularBuffer.mk (cb.m_seconds_per_row * (cb.m_rows - 1)) cb.m_seconds_per_row (cb.m_rows - 1) cb.m_rows cb.m_columns cb.m_headers (List.replicate (cb.m_rows * cb.m_columns) 0) false OUTPUT_FORMAT.cbuf) (natMsbChars cb.m_current_time :: natMsbChars cb.m_current_row :: cells) = some (CircularBuffer.mk cb.m_current_time cb.m_seconds_per_row cb.m_current_row cb.m_rows cb.m_columns cb.m_headers cb.m_values false OUTPUT_FORMAT.cbuf) := by
    simp only [circular_buffer_fromstring, parseNatToken_natMsbChars]
    rw [hfill, hwrite]
  refine ⟨cb_serialized.mk cb.m_rows cb.m_columns cb.m_seconds_per_row cb.m_delta ((List.range cb.m_columns).map (fun i => (i + 1, (cb.m_headers.getD i (header_info.mk [] [] COLUMN_AGGREGATION.sum)).m_name, (cb.m_headers.getD i (header_info.mk [] [] COLUMN_AGGREGATION.sum)).m_unit, (cb.m_headers.getD i (header_info.mk [] [] COLUMN_AGGREGATION.sum)).m_aggregation))) (natMsbChars cb.m_current_time :: natMsbChars cb.m_current_row :: cells), CircularBuffer.mk cb.m_current_time cb.m_seconds_per_row cb.m_current_row cb.m_rows cb.m_columns cb.m_headers cb.m_values false OUTPUT_FORMAT.cbuf, ?_, ?_, rfl, rfl, rfl, rfl, rfl, rfl, rfl⟩
  · simp only [serialize_circular_buffer, hmapm]
  · simp only [restore_circular_buffer]
    rw [hdelta, hnew]
    simp only [Option.bind_eq_bind, Option.pure_def, Option.some_bind]
    simp only [Option.bind_eq_bind, Option.pure_def] at hfold
    rw [hlines, hfold]
    simp only [Option.some_bind]
    rw [hfrom]

/-- Witness for C2: a 2x1 buffer with one second per row, T = 1, r = 1,
cells 1/4 and 0, default header. -/
theorem C2_serialize_restore_roundtrip_witness :
    ∃ s cb2, serialize_circular_buffer (CircularBuffer.mk 1 1 1 2 1 [header_info.mk (("Column_1").toList) (("count").toList) COLUMN_AGGREGATION.sum] [1/4, 0] false OUTPUT_FORMAT.cbuf) = some s ∧
      restore_circular_buffer s = some cb2 ∧
      cb2.m_current_time = 1 ∧
      cb2.m_current_row = 1 ∧
      cb2.m_headers = [header_info.mk (("Column_1").toList) (("count").toList) COLUMN_AGGREGATION.sum] ∧
      cb2.m_values = [1/4, 0] ∧
      cb2.m_rows = 2 ∧
      cb2.m_columns = 1 ∧
      cb2.m_seconds_per_row = 1 :=
  C2_serialize_restore_roundtrip _
    ⟨by decide, by decide, by decide, by decide, by decide, by decide⟩
    ⟨by decide, by decide⟩ rfl
    (by
      intro v hv
      simp only [List.mem_cons, List.not_mem_nil, or_false] at hv
      rcases hv with rfl | rfl
      · exact ⟨false, 0, 25000000, by norm_num, by norm_num, by norm_num⟩
      · exact ⟨false, 0, 0, by norm_num, by norm_num, by norm_num⟩)

set_option maxRecDepth 4096 in
/-- Counterexample for C2: a cell holding 2^-20 = 1/1048576 (exactly
representable as a double, printed by the sandbox's serializer as
0.00000095) is restored as 95/10^8 — serialize_double keeps only eight
decimal fraction digits (lua_sandbox_private.c lines 215..226), so cell
values are not bit-identical after the round trip. -/
theorem C2_eight_digit_truncation_counterexample :
    ∃ s cb2, serialize_circular_buffer (CircularBuffer.mk 1 1 1 2 1 [header_info.mk (("Column_1").toList) (("count").toList) COLUMN_AGGREGATION.sum] [1/1048576, 0] false OUTPUT_FORMAT.cbuf) = some s ∧
      restore_circular_buffer s = some cb2 ∧
      cb2.m_values ≠ [1/1048576, 0] := by
  have he : (((1 : ℚ)/1048576) - ((0 : ℕ) : ℚ)) * 100000000 = 390625/4096 := by norm_num
  have hmax95 : ¬ ((1 : ℚ)/1048576) > (INT_MAX : ℚ) := by
    rw [INT_MAX]
    push_cast
    norm_num
  have hneg95 : ¬ ((1 : ℚ)/1048576) < 0 := by norm_num
  have hfl95 : ((1 : ℚ)/1048576).floor = ((0 : ℕ) : ℤ) := by
    rw [rat_floor_eq_intFloor, Int.floor_eq_iff]
    constructor
    · push_cast
      norm_num
    · push_cast
      norm_num
  have hfr95 : ((((1 : ℚ)/1048576) - ((0 : ℕ) : ℚ)) * 100000000).floor = ((95 : ℕ) : ℤ) := by
    rw [he, rat_floor_eq_intFloor, Int.floor_eq_iff]
    constructor
    · push_cast
      norm_num
    · push_cast
      norm_num
  have hd195 : ¬ ((((1 : ℚ)/1048576) - ((0 : ℕ) : ℚ)) * 100000000 - ((95 : ℕ) : ℚ) > 1/2) := by
    rw [he]
    push_cast
    norm_num
  have hd295 : ¬ ((((1 : ℚ)/1048576) - ((0 : ℕ) : ℚ)) * 100000000 - ((95 : ℕ) : ℚ) = 1/2 ∧ ((95 : ℕ) = 0 ∨ (95 : ℕ) &&& 1 = 1)) := by
    intro hcon
    have h1 := hcon.1
    rw [he] at h1
    push_cast at h1
    norm_num at h1
  have h95 : serialize_double ((1 : ℚ)/1048576) = some (("0.00000095").toList) := by
    rw [serialize_double_eq ((1 : ℚ)/1048576) 0 95 hmax95 hneg95 hfl95 hfr95 hd195 hd295]
    decide
  have h0 : serialize_double (0 : ℚ) = some (('0') :: []) := by
    have h := serialize_double_exact 0 0 (by norm_num) (by norm_num)
    rw [show ((0 : ℕ) : ℚ) + ((0 : ℕ) : ℚ) / 10 ^ 8 = (0 : ℚ) from by norm_num] at h
    rw [h]
    decide
  have hmap : List.mapM serialize_double ([1/1048576, 0] : List ℚ) = some [("0.00000095").toList, ('0') :: []] := by
    rw [show ([1/1048576, 0] : List ℚ) = ((1 : ℚ)/1048576) :: (0 : ℚ) :: [] from by norm_num]
    simp only [List.mapM_cons, List.mapM_nil, h95, h0, Option.bind_eq_bind,
      Option.pure_def, Option.some_bind]
  have hp95 : parseDec (("0.00000095").toList) = some (((0 : ℕ) : ℚ) + ((Nat.ofDigits 10 ((((("00000095").toList)).map charDigit).reverse) : ℕ) : ℚ) / 10 ^ (("00000095").toList).length) := by
    have hco := parseDecCore_digits_dot (('0') :: []) (("00000095").toList) (by decide) (by decide) (by decide)
    rw [show (Nat.ofDigits 10 (((('0') :: []).map charDigit).reverse) : ℕ) = 0 from by decide] at hco
    rw [show (('0') :: []) ++ '.' :: (("00000095").toList) = ("0.00000095").toList from by decide] at hco
    have hp := parseDec_of_core false (("0.00000095").toList) _ (by decide) (by decide) hco
    simp only [Bool.false_eq_true, if_false, List.nil_append] at hp
    exact hp
  have hp0 : parseDec (('0') :: []) = some (((0 : ℕ) : ℚ)) := by
    have hco := parseDecCore_digits (('0') :: []) (by decide) (by decide)
    rw [show (Nat.ofDigits 10 (((('0') :: []).map charDigit).reverse) : ℕ) = 0 from by decide] at hco
    have hp := parseDec_of_core false (('0') :: []) _ (by decide) (by decide) hco
    simp only [Bool.false_eq_true, if_false, List.nil_append] at hp
    exact hp
  refine ⟨cb_serialized.mk 2 1 1 false [(1, ("Column_1").toList, ("count").toList, COLUMN_AGGREGATION.sum)] [('1') :: [], ('1') :: [], ("0.00000095").toList, ('0') :: []], CircularBuffer.mk 1 1 1 2 1 [header_info.mk (("Column_1").toList) (("count").toList) COLUMN_AGGREGATION.sum] [((0 : ℕ) : ℚ) + ((Nat.ofDigits 10 ((((("00000095").toList)).map charDigit).reverse) : ℕ) : ℚ) / 10 ^ (("00000095").toList).length, ((0 : ℕ) : ℚ)] false OUTPUT_FORMAT.cbuf, ?_, ?_, ?_⟩
  · simp only [serialize_circular_buffer, hmap]
    decide
  · simp only [restore_circular_buffer]
    rw [show circular_buffer_new 2 1 1 false = some (CircularBuffer.mk 1 1 1 2 1 [header_info.mk (("Column_1").toList) (("count").toList) COLUMN_AGGREGATION.sum] ((0 : ℚ) :: (0 : ℚ) :: []) false OUTPUT_FORMAT.cbuf) from by decide]
    simp only [Option.bind_eq_bind, Option.pure_def, Option.some_bind]
    rw [List.foldlM_cons]
    simp only []
    rw [show circular_buffer_set_header (CircularBuffer.mk 1 1 1 2 1 [header_info.mk (("Column_1").toList) (("count").toList) COLUMN_AGGREGATION.sum] ((0 : ℚ) :: (0 : ℚ) :: []) false OUTPUT_FORMAT.cbuf) 1 (("Column_1").toList) (("count").toList) COLUMN_AGGREGATION.sum = some ((CircularBuffer.mk 1 1 1 2 1 [header_info.mk (("Column_1").toList) (("count").toList) COLUMN_AGGREGATION.sum] ((0 : ℚ) :: (0 : ℚ) :: []) false OUTPUT_FORMAT.cbuf), 1) from by decide]
    simp only [Option.bind_eq_bind, Option.pure_def, Option.some_bind, List.foldlM_nil]
    simp only [circular_buffer_fromstring]
    rw [show parseNatToken (('1') :: []) = some 1 from by decide]
    simp only [fromstring_cells, hp95, hp0]
    rfl
  · show (([((0 : ℕ) : ℚ) + ((Nat.ofDigits 10 ((((("00000095").toList)).map charDigit).reverse) : ℕ) : ℚ) / 10 ^ (("00000095").toList).length, ((0 : ℕ) : ℚ)] : List ℚ) ≠ [1/1048576, 0])
    intro hcon
    simp only [List.cons.injEq] at hcon
    have h1 := hcon.1
    rw [show (Nat.ofDigits 10 ((((("00000095").toList)).map charDigit).reverse) : ℕ) = 95 from by decide, show ((("00000095").toList)).length = 8 from by decide] at h1
    push_cast at h1
    norm_num at h1

end Heka
